import Mathlib

/-!
Verification of the deal-solver symbolic execution core: a shallow embedding
of the statement evaluator (`_eval_stmt.py`), annotation resolution
(`_annotations.py`) and the random built-in handlers (`_funcs/_random.py`),
together with spec-modelled scaffolding for the execution context, proxy
values and expression evaluation whose sources are external to the excerpt.
Solver (z3) expressions are deep-embedded as a syntax tree with an
evaluation semantics; machine arithmetic is exact (z3 Int is unbounded,
z3 Real is modelled by rationals).
-/

namespace DealSolver

/-- Solver-level sorts (z3 sorts): booleans, unbounded integers, reals
(deal-solver's default float model), strings, sequences and sets. -/
inductive ZSort where
  | bool
  | int
  | float
  | str
  | seq (elem : ZSort)
  | setS (elem : ZSort)
  deriving DecidableEq, Repr

/-- Deep embedding of the z3 expressions the evaluated code builds:
constants, named symbols, boolean connectives, conditionals, comparisons,
arithmetic and sequence operations, and applications of uninterpreted
functions (`z3.Function(name, *sorts)` applied to arguments; the domain
sorts of the declared function are the sorts of the argument expressions
and the stored sort is the range sort). -/
inductive Expr where
  | boolVal (b : Bool)
  | intVal (n : Int)
  | floatVal (q : Rat)
  | strVal (s : String)
  | const (name : String) (sort : ZSort)
  | not (e : Expr)
  | and (a b : Expr)
  | eq (a b : Expr)
  | ge (a b : Expr)
  | le (a b : Expr)
  | lt (a b : Expr)
  | ite (c t e : Expr)
  | sub (a b : Expr)
  | length (e : Expr)
  | nth (s i : Expr)
  | toReal (e : Expr)
  | app (fname : String) (args : List Expr) (retSort : ZSort)
  deriving Repr

/-- The declared sort of an expression (z3's `.sort()`). -/
def Expr.sort : Expr → ZSort
  | .boolVal _ => .bool
  | .intVal _ => .int
  | .floatVal _ => .float
  | .strVal _ => .str
  | .const _ s => s
  | .not _ => .bool
  | .and _ _ => .bool
  | .eq _ _ => .bool
  | .ge _ _ => .bool
  | .le _ _ => .bool
  | .lt _ _ => .bool
  | .ite _ t _ => t.sort
  | .sub a _ => a.sort
  | .length _ => .int
  | .nth s _ =>
      match s.sort with
      | .seq e => e
      | _ => .int
  | .toReal _ => .float
  | .app _ _ rs => rs

/-- Semantic values for evaluating embedded solver expressions: booleans,
integers, rationals (z3 Real), strings, or a sort-error marker. -/
inductive Value where
  | b (x : Bool)
  | i (x : Int)
  | r (x : Rat)
  | s (x : String)
  | err
  deriving DecidableEq, Repr

mutual

/-- Evaluation of an embedded solver expression under an assignment of
named symbols and an interpretation of uninterpreted functions. -/
def Expr.eval (σ : String → Value) (Φ : String → List Value → Value) : Expr → Value
  | .boolVal b => .b b
  | .intVal n => .i n
  | .floatVal q => .r q
  | .strVal s => .s s
  | .const n _ => σ n
  | .not e =>
      match e.eval σ Φ with
      | .b x => .b (!x)
      | _ => .err
  | .and a b =>
      match a.eval σ Φ, b.eval σ Φ with
      | .b x, .b y => .b (x && y)
      | _, _ => .err
  | .eq a b =>
      match a.eval σ Φ, b.eval σ Φ with
      | .i x, .i y => .b (decide (x = y))
      | .r x, .r y => .b (decide (x = y))
      | .b x, .b y => .b (decide (x = y))
      | .s x, .s y => .b (decide (x = y))
      | _, _ => .err
  | .ge a b =>
      match a.eval σ Φ, b.eval σ Φ with
      | .i x, .i y => .b (decide (x ≥ y))
      | .r x, .r y => .b (decide (x ≥ y))
      | _, _ => .err
  | .le a b =>
      match a.eval σ Φ, b.eval σ Φ with
      | .i x, .i y => .b (decide (x ≤ y))
      | .r x, .r y => .b (decide (x ≤ y))
      | _, _ => .err
  | .lt a b =>
      match a.eval σ Φ, b.eval σ Φ with
      | .i x, .i y => .b (decide (x < y))
      | .r x, .r y => .b (decide (x < y))
      | _, _ => .err
  | .ite c t e =>
      match c.eval σ Φ with
      | .b true => t.eval σ Φ
      | .b false => e.eval σ Φ
      | _ => .err
  | .sub a b =>
      match a.eval σ Φ, b.eval σ Φ with
      | .i x, .i y => .i (x - y)
      | .r x, .r y => .r (x - y)
      | _, _ => .err
  | .length e =>
      match e.eval σ Φ with
      | .s x => .i x.length
      | _ => .err
  | .nth _ _ => .err
  | .toReal e =>
      match e.eval σ Φ with
      | .i x => .r x
      | _ => .err
  | .app f args _ => Φ f (Expr.evalList σ Φ args)

/-- Evaluation of a list of embedded solver expressions. -/
def Expr.evalList (σ : String → Value) (Φ : String → List Value → Value) :
    List Expr → List Value
  | [] => []
  | e :: rest => e.eval σ Φ :: Expr.evalList σ Φ rest

end

/-- Proxy values ("Symbolic Value" in the spec, `ProxySort` subclasses in
the code): a variant tag plus one underlying solver expression. The
variants used by the claims under verification are embedded; fixed tuples
carry a sequence payload in the same way as `VarTupleSort` does. -/
inductive Proxy where
  | bool (expr : Expr)
  | int (expr : Expr)
  | float (expr : Expr)
  | str (expr : Expr)
  | list (expr : Expr)
  | varTuple (expr : Expr)
  | setP (expr : Expr)
  deriving Repr

/-- Modelled from the spec: `unwrap` (from `_proxies/_funcs.py`, not under
src/) strips the tag and returns the bare solver expression. -/
def unwrap : Proxy → Expr
  | .bool e => e
  | .int e => e
  | .float e => e
  | .str e => e
  | .list e => e
  | .varTuple e => e
  | .setP e => e

/-- Modelled from the spec: `wrap` (from `_proxies/_funcs.py`, not under
src/) returns the correctly-tagged proxy variant by inspecting the
expression's declared sort. -/
def wrap (e : Expr) : Proxy :=
  match e.sort with
  | .bool => .bool e
  | .int => .int e
  | .float => .float e
  | .str => .str e
  | .seq _ => .list e
  | .setS _ => .setP e

/-- The solver sort of a proxy value (`ProxySort.sort()`). -/
def Proxy.sortOf (p : Proxy) : ZSort :=
  (unwrap p).sort

/-- Modelled from the spec: boolean coercion of a proxy value
(`ProxySort.as_bool`, not under src/) following the subject language's
implicit truthiness (zero, empty string and empty collection are falsy). -/
def Proxy.as_bool : Proxy → Expr
  | .bool e => e
  | .int e => .not (.eq e (.intVal 0))
  | .float e => .not (.eq e (.floatVal 0))
  | .str e => .not (.eq e (.strVal ""))
  | .list e => .not (.eq (.length e) (.intVal 0))
  | .varTuple e => .not (.eq (.length e) (.intVal 0))
  | .setP e => .not (.eq (.length e) (.intVal 0))

/-- Errors raised by the evaluator. `unsupported parts` embeds
`UnsupportedError(*parts)` from `_exceptions.py`. -/
inductive Err where
  | unsupported (parts : List String)
  deriving DecidableEq, Repr

/-- Modelled from the spec: `if_expr(cond, a, b)` (from
`_proxies/_funcs.py`, not under src/) requires both branches to be the
same variant and returns that variant wrapping the solver-level
conditional of the two payloads; mismatched variants are a hard error. -/
def if_expr (test : Proxy) (a b : Proxy) : Except Err Proxy :=
  match a, b with
  | .bool x, .bool y => .ok (.bool (.ite test.as_bool x y))
  | .int x, .int y => .ok (.int (.ite test.as_bool x y))
  | .float x, .float y => .ok (.float (.ite test.as_bool x y))
  | .str x, .str y => .ok (.str (.ite test.as_bool x y))
  | .list x, .list y => .ok (.list (.ite test.as_bool x y))
  | .varTuple x, .varTuple y => .ok (.varTuple (.ite test.as_bool x y))
  | .setP x, .setP y => .ok (.setP (.ite test.as_bool x y))
  | _, _ => .error (.unsupported ["different types in branches"])

/-- Literal constant payloads of `astroid.Const` nodes. -/
inductive ConstVal where
  | bool (b : Bool)
  | int (n : Int)
  | str (s : String)
  | noneV
  | other
  deriving DecidableEq, Repr

/-- Deep embedding of the astroid AST nodes the evaluated code inspects.
Reference resolution (astroid's inference) is embedded by attaching the
list of candidate declarations directly to `name` and `callNode` nodes;
since declarations are sub-trees, resolvable hierarchies are finite, which
matches astroid's handling of sane (acyclic) class hierarchies. -/
inductive Node where
  | const (value : ConstVal)
  | ellipsisNode
  | name (id : String) (defs : List Node)
  | assignName (id : String)
  | tupleNode (elts : List Node)
  | subscript (value : Node) (slice : Node)
  | index (value : Node)
  | classDef (module : String) (cname : String) (bases : List Node)
  | instanceNode (proxied : Node)
  | moduleDef (module : String) (qname : String)
  | callNode (funcNode : Node) (defs : List Node)
  deriving Repr

/-- Modelled from the spec: `infer` from `_ast.py` (not under src/) —
"resolve a referenced definition to zero-or-more candidate declarations";
the candidates are the declaration lists attached to reference nodes. -/
def infer : Node → List Node
  | .name _ defs => defs
  | .callNode _ defs => defs
  | _ => []

/-- Modelled from the spec: `get_name` from `_ast.py` (not under src/) —
the referenced name of a node, when it has one. -/
def get_name : Node → Option String
  | .name id _ => some id
  | _ => none

/-- Modelled from the spec: `get_full_name` from `_ast.py` (not under
src/) — the (module name, qualified object name) of a declaration. -/
def get_full_name : Node → String × String
  | .classDef m n _ => (m, n)
  | .moduleDef m q => (m, q)
  | _ => ("", "")

mutual

/-- Embeds `_get_all_bases` from `_eval_stmt.py`: walk the inferred
declarations of `node`; for each, unwrap instances to their class, emit
the referenced name when `node` is a Name, and for class definitions emit
the class name and recurse into every base that is a Name. -/
def getAllBases (node : Node) : List String :=
  match node with
  | .name id defs => getAllBasesDefs (some id) defs
  | .callNode _ defs => getAllBasesDefs none defs
  | _ => []

/-- Loop of `_get_all_bases` over the inferred declaration nodes;
`selfName` is `node.name` when the walked node is a Name. -/
def getAllBasesDefs (selfName : Option String) : List Node → List String
  | [] => []
  | d :: rest => getAllBasesDef selfName d ++ getAllBasesDefs selfName rest

/-- One iteration of the `_get_all_bases` loop: unwrap
`astroid.Instance` to its proxied class, yield the referencing name, and
for a `ClassDef` yield its name followed by the bases walk. -/
def getAllBasesDef (selfName : Option String) (d : Node) : List String :=
  (match selfName with
   | some n => [n]
   | none => []) ++
  match d with
  | .instanceNode (.classDef _ cname bases) => cname :: getAllBasesBases bases
  | .classDef _ cname bases => cname :: getAllBasesBases bases
  | _ => []

/-- Recursion of `_get_all_bases` into base-class references that are
Name nodes. -/
def getAllBasesBases : List Node → List String
  | [] => []
  | b :: rest =>
      (match b with
       | .name id defs => getAllBases (.name id defs)
       | _ => []) ++ getAllBasesBases rest

end

/-- Embeds `SIMPLE_SORTS` from `_annotations.py`. -/
def SIMPLE_SORTS : String → Option ZSort
  | "bool" => some .bool
  | "int" => some .int
  | "float" => some .float
  | "str" => some .str
  | _ => none

/-- Embeds the `Generic` named tuple from `_annotations.py`: proxy
constructor, sort constructor and arity of a generic type. -/
structure Generic where
  type : Expr → Proxy
  sort : List ZSort → ZSort
  arity : Nat

/-- Embeds `GENERICS` from `_annotations.py` (`dict` is commented out in
the source). -/
def GENERICS : String → Option Generic
  | "list" => some ⟨Proxy.list, fun ss => .seq (ss.headD .int), 1⟩
  | "set" => some ⟨Proxy.setP, fun ss => .setS (ss.headD .int), 1⟩
  | _ => none

/-- ASCII lowercasing of a name (`str.lower()` in the source), defined
over the character list so that it evaluates by kernel reduction. -/
def str_lower (s : String) : String :=
  ⟨s.data.map Char.toLower⟩

/-- Embeds `_sort_from_name` from `_annotations.py`. -/
def _sort_from_name (name : String) (nodeName : String) : Option Proxy :=
  match SIMPLE_SORTS nodeName with
  | none => none
  | some sort => some (wrap (.const name sort))

/-- Embeds `_sort_from_str` from `_annotations.py` (string-literal
forward annotations). -/
def _sort_from_str (name : String) (value : String) : Option Proxy :=
  match SIMPLE_SORTS value with
  | none => none
  | some sort => some (wrap (.const name sort))

mutual

/-- Size of an AST node, the measure used to justify termination of the
mutually recursive annotation-resolution functions. -/
def nodeSize : Node → Nat
  | .const _ => 1
  | .ellipsisNode => 1
  | .name _ defs => 1 + nodeListSize defs
  | .assignName _ => 1
  | .tupleNode elts => 1 + nodeListSize elts
  | .subscript v s => 1 + nodeSize v + nodeSize s
  | .index v => 1 + nodeSize v
  | .classDef _ _ bases => 1 + nodeListSize bases
  | .instanceNode p => 1 + nodeSize p
  | .moduleDef _ _ => 1
  | .callNode f defs => 1 + nodeSize f + nodeListSize defs

/-- Size of a list of AST nodes. -/
def nodeListSize : List Node → Nat
  | [] => 0
  | n :: rest => 1 + nodeSize n + nodeListSize rest

end

mutual

/-- Embeds `ann2type` from `_annotations.py`: resolves an annotation node
to a typed proxy symbol, or `none` for every annotation shape it does not
recognize (the function never raises: all fall-through shapes map to
`none`). -/
def ann2type (name : String) (node : Node) : Option Proxy :=
  match node with
  | .name id _ => _sort_from_name name id
  | .const (.str v) => _sort_from_str name v
  | .subscript value slice => _sort_from_getattr name value slice
  | _ => none
termination_by (nodeSize node, 0)
decreasing_by all_goals (simp_wf; subst_vars; simp only [Prod.lex_def, nodeSize, nodeListSize]; first | omega | simp)

/-- Embeds `_sort_from_getattr` from `_annotations.py`: subscripted
(generic) annotations. The slice must be an `astroid.Index`; the
subscripted value must infer to exactly one definition from `typing` or
`builtins`. The source collects the type parameters as the elements of a
tuple slice, or the singleton of the slice value; the branch on a tuple
versus other generic heads is split into the two helpers below. -/
def _sort_from_getattr (name : String) (value : Node) (slice : Node) : Option Proxy :=
  match slice with
  | .index sv => _sort_from_getattr_index name value sv
  | _ => none
termination_by (nodeSize slice, 4)
decreasing_by all_goals (simp_wf; subst_vars; simp only [Prod.lex_def, nodeSize, nodeListSize]; first | omega | simp)

/-- The body of `_sort_from_getattr` once the slice is known to be an
`astroid.Index` with value `sv`: check the module of the single inferred
definition, collect the type parameters (the elements of a tuple slice,
or the singleton of the slice value), and dispatch on the type name. -/
def _sort_from_getattr_index (name : String) (value : Node) (sv : Node) : Option Proxy :=
  match infer value with
  | [d] =>
      let moduleName := (get_full_name d).1
      if moduleName ≠ "typing" ∧ moduleName ≠ "builtins" then none
      else
        let typeName := str_lower ((get_name value).getD "")
        match _hsv : sv with
        | .tupleNode elts =>
            if typeName = "tuple" then _tuple_branch name elts
            else _generic_branch name typeName elts
        | _ =>
            if typeName = "tuple" then _tuple_branch name [sv]
            else _generic_branch name typeName [sv]
  | _ => none
termination_by (1 + nodeSize sv, 3)
decreasing_by all_goals (simp_wf; subst_vars; simp only [Prod.lex_def, nodeSize, nodeListSize]; first | omega | simp)

/-- The `type_name == 'tuple'` branch of `_sort_from_getattr`:
`Tuple[X, ...]` — exactly two type parameters, the second an ellipsis —
resolves to a `VarTupleSort` over the element sort; every other shape
(in particular every fixed-arity tuple) resolves to `none`. -/
def _tuple_branch (name : String) (nodes : List Node) : Option Proxy :=
  -- variable size tuple
  match nodes with
  | [x, .ellipsisNode] =>
      match ann2type name x with
      | none => none
      | some subtype => some (.varTuple (.const name (.seq subtype.sortOf)))
  | _ => none
termination_by (nodeListSize nodes, 2)
decreasing_by all_goals (simp_wf; subst_vars; simp only [Prod.lex_def, nodeSize, nodeListSize]; first | omega | simp)

/-- The generic (`GENERICS` table) branch of `_sort_from_getattr`:
arity check, then resolution of every type parameter. -/
def _generic_branch (name : String) (typeName : String) (nodes : List Node) :
    Option Proxy :=
  match GENERICS typeName with
  | none => none
  | some generic =>
      if nodes.length ≠ generic.arity then none
      else
        match ann2typeList name nodes with
        | none => none
        | some subtypes =>
            some (generic.type (.const name (generic.sort (subtypes.map Proxy.sortOf))))
termination_by (nodeListSize nodes, 2)
decreasing_by all_goals (simp_wf; subst_vars; simp only [Prod.lex_def, nodeSize, nodeListSize]; first | omega | simp)

/-- The subtype-resolution loop of `_sort_from_getattr`: resolve every
type parameter, failing to `none` as soon as one does not resolve. -/
def ann2typeList (name : String) : List Node → Option (List Proxy)
  | [] => some []
  | n :: rest =>
      match ann2type name n with
      | none => none
      | some subtype =>
          match ann2typeList name rest with
          | none => none
          | some subtypes => some (subtype :: subtypes)
termination_by l => (nodeListSize l, 1)
decreasing_by all_goals (simp_wf; subst_vars; simp only [Prod.lex_def, nodeSize, nodeListSize]; first | omega | simp)

end

/-- Modelled from the spec: `ann2sort` from `_annotations.py` is imported
by `_eval_stmt.py` but its definition is not under src/; per the spec it
is "resolve the solver sort denoted by this type annotation, or report
none", here realised as the sort of the symbol `ann2type` resolves. -/
def ann2sort (node : Node) : Option ZSort :=
  (ann2type "return_value" node).map Proxy.sortOf

/-- Embeds `ExceptionInfo` from `_context.py`: "if cond holds, one of
these exception types escapes on this path". -/
structure ExceptionInfo where
  names : Finset String
  cond : Expr

/-- The value recorded by a `ReturnInfo`: the evaluator stores a proxy
value (`eval_return`), while recursion summarization (`eval_func`) stores
a raw solver application. -/
inductive RValue where
  | proxy (p : Proxy)
  | raw (e : Expr)

/-- Embeds `ReturnInfo` from `_context.py`: "if cond holds, the function
returns value on this path". -/
structure ReturnInfo where
  value : RValue
  cond : Expr

/-- Modelled from the spec: the execution `Context` from `_context.py`
(not under src/) — five layered registers (top layer first), plus the
context-wide `interrupted` expression and recursion-trace set shared by
reference across the whole evaluation (modelled by explicit threading). -/
structure Context where
  scope : List (List (String × Proxy))
  given : List (List Expr)
  expected : List (List Expr)
  exceptions : List (List ExceptionInfo)
  returns : List (List ReturnInfo)
  interrupted : Expr
  trace : Finset String

/-- The top layer of a layered register (`register.layer`). -/
def topLayer (xs : List (List α)) : List α :=
  xs.headD []

/-- Append an item to the top layer of a layered register
(`register.add(item)`). -/
def addTop (xs : List (List α)) (a : α) : List (List α) :=
  match xs with
  | [] => [[a]]
  | l :: rest => (l ++ [a]) :: rest

/-- Layered name lookup: first hit in the top layer wins, falling
through to parent layers. -/
def layersGet (layers : List (List (String × Proxy))) (name : String) : Option Proxy :=
  match layers with
  | [] => none
  | l :: rest =>
      match l.lookup name with
      | some v => some v
      | none => layersGet rest name

/-- Declare-or-overwrite a binding in a single scope layer. -/
def setAssoc (l : List (String × Proxy)) (name : String) (v : Proxy) :
    List (String × Proxy) :=
  match l with
  | [] => [(name, v)]
  | (k, w) :: rest => if k = name then (k, v) :: rest else (k, w) :: setAssoc rest name v

/-- `ctx.scope.get(name)`: lookup through the layer stack. -/
def Context.scope_get (ctx : Context) (name : String) : Option Proxy :=
  layersGet ctx.scope name

/-- `ctx.scope.set(name, value)`: declare-or-overwrite in the top layer
only, shadowing without touching parent layers. -/
def Context.scope_set (ctx : Context) (name : String) (v : Proxy) : Context :=
  { ctx with scope :=
      match ctx.scope with
      | [] => [[(name, v)]]
      | l :: rest => setAssoc l name v :: rest }

/-- `ctx.make_child()`: a new context sharing `interrupted`/`trace` with
the parent, every register gaining one fresh empty top layer. -/
def Context.make_child (ctx : Context) : Context :=
  { ctx with
    scope := [] :: ctx.scope
    given := [] :: ctx.given
    expected := [] :: ctx.expected
    exceptions := [] :: ctx.exceptions
    returns := [] :: ctx.returns }

/-- `ctx.given.add(expr)` (the stored item is the underlying solver
boolean). -/
def Context.given_add (ctx : Context) (e : Expr) : Context :=
  { ctx with given := addTop ctx.given e }

/-- `ctx.expected.add(expr)`. -/
def Context.expected_add (ctx : Context) (e : Expr) : Context :=
  { ctx with expected := addTop ctx.expected e }

/-- `ctx.exceptions.add(info)`. -/
def Context.exceptions_add (ctx : Context) (i : ExceptionInfo) : Context :=
  { ctx with exceptions := addTop ctx.exceptions i }

/-- `ctx.returns.add(info)`. -/
def Context.returns_add (ctx : Context) (r : ReturnInfo) : Context :=
  { ctx with returns := addTop ctx.returns r }

/-- Everything accumulated so far in the `exceptions` register (all
layers). -/
def Context.allExceptions (ctx : Context) : List ExceptionInfo :=
  ctx.exceptions.foldr (fun l acc => l ++ acc) []

/-- Everything accumulated so far in the `expected` register. -/
def Context.allExpected (ctx : Context) : List Expr :=
  ctx.expected.foldr (fun l acc => l ++ acc) []

/-- Everything accumulated so far in the `given` register. -/
def Context.allGiven (ctx : Context) : List Expr :=
  ctx.given.foldr (fun l acc => l ++ acc) []

/-- A fresh root context for one proof attempt: one empty layer per
register, `interrupted` initially the constant false, empty trace. -/
def Context.root : Context :=
  { scope := [[]]
    given := [[]]
    expected := [[]]
    exceptions := [[]]
    returns := [[]]
    interrupted := .boolVal false
    trace := ∅ }

/-- Deep embedding of the astroid statement nodes dispatched on by
`eval_stmt` (`HandlersRegistry` keyed on the node class). -/
inductive Stmt where
  | functionDef (fname : String) (returns : Option Node) (body : List Stmt)
  | assertS (test : Option Node)
  | exprStmt (value : Node)
  | assign (targets : List Node) (value : Node)
  | returnS (value : Node)
  | ifS (test : Option Node) (body : List Stmt) (orelse : List Stmt)
  | raiseS (exc : Option Node) (cause : Option Node)
  | passS
  | importS
  | importFromS
  | globalS

mutual

/-- Size of a statement, the termination measure of the evaluator. -/
def stmtSize : Stmt → Nat
  | .functionDef _ _ body => 1 + stmtListSize body
  | .ifS _ body orelse => 1 + stmtListSize body + stmtListSize orelse
  | _ => 1

/-- Size of a statement list. -/
def stmtListSize : List Stmt → Nat
  | [] => 0
  | s :: rest => 1 + stmtSize s + stmtListSize rest

end

/-- Modelled from the spec: `eval_expr` (`_eval_expr.py`, not under
src/) — "dispatches on expression kind into literal construction, name
lookup (falls through Context scope), ..."; the model covers the literal
and name cases the claims need and treats every other expression kind as
an unsupported construct. -/
def eval_expr (node : Node) (ctx : Context) : Except Err (Proxy × Context) :=
  match node with
  | .const (.bool b) => .ok (.bool (.boolVal b), ctx)
  | .const (.int n) => .ok (.int (.intVal n), ctx)
  | .const (.str s) => .ok (.str (.strVal s), ctx)
  | .name id _ =>
      match ctx.scope_get id with
      | some v => .ok (v, ctx)
      | none => .error (.unsupported ["cannot resolve name", id])
  | _ => .error (.unsupported ["unsupported expression"])

/-- Embeds `eval_assert` from `_eval_stmt.py`: evaluate the test, coerce
to boolean (`expr.as_bool`; every model value is a `ProxySort`), and add
`z3.If(ctx.interrupted, true, expr)` to the `expected` register. -/
def eval_assert (test : Option Node) (ctx : Context) : Except Err Context :=
  match test with
  | none => .error (.unsupported ["assert without condition"])
  | some t =>
      match eval_expr t ctx with
      | .error e => .error e
      | .ok (p, ctx1) =>
          let expr := p.as_bool
          let expr1 := Expr.ite ctx1.interrupted (.boolVal true) expr
          .ok (ctx1.expected_add expr1)

/-- Embeds `eval_assign` from `_eval_stmt.py`: exactly one target, which
must be a simple name; evaluate the value and bind it in scope. -/
def eval_assign (targets : List Node) (value : Node) (ctx : Context) : Except Err Context :=
  match targets with
  | [] => .error (.unsupported ["assignment to an empty target"])
  | [target] =>
      match target with
      | .assignName tname =>
          match eval_expr value ctx with
          | .error e => .error e
          | .ok (v, ctx1) => .ok (ctx1.scope_set tname v)
      | _ => .error (.unsupported ["assignment target"])
  | _ :: _ :: _ => .error (.unsupported ["multiple assignment"])

/-- Embeds `eval_return` from `_eval_stmt.py`: record a `ReturnInfo`
whose value is the evaluated expression and whose condition is
`z3.Not(ctx.interrupted)`. -/
def eval_return (value : Node) (ctx : Context) : Except Err Context :=
  match eval_expr value ctx with
  | .error e => .error e
  | .ok (v, ctx1) =>
      .ok (ctx1.returns_add ⟨.proxy v, .not ctx1.interrupted⟩)

/-- Embeds `eval_raise` from `_eval_stmt.py`: collect the exception-type
names reachable from the raised expression and the optional cause via
`_get_all_bases`, and record an `ExceptionInfo` with that name set at
condition `z3.Not(ctx.interrupted)`. -/
def eval_raise (exc cause : Option Node) (ctx : Context) : Except Err Context :=
  let names := (exc.toList ++ cause.toList).foldl
    (fun acc n => acc ∪ (getAllBases n).toFinset) (∅ : Finset String)
  .ok (ctx.exceptions_add ⟨names, .not ctx.interrupted⟩)

/-- Keys of a scope layer (`set(scope.layer)`). -/
def layerKeys (l : List (String × Proxy)) : List String :=
  l.map Prod.fst

/-- The `changed_vars` set of `eval_if_else`: names assigned in the top
scope layer of either child (iterated as a duplicate-free list). -/
def changedVars (ctxThen ctxElse : Context) : List String :=
  (layerKeys (topLayer ctxThen.scope) ++ layerKeys (topLayer ctxElse.scope)).dedup

/-- The variable-update loop of `eval_if_else`: for each changed name,
look its value up in both children (an unbound-variable error when
either side has none), and rebind it in the current context to
`if_expr(test, val_then, val_else)`. -/
def merge_vars (test : Proxy) (ctxThen ctxElse : Context) :
    List String → Context → Except Err Context
  | [], ctx => .ok ctx
  | v :: rest, ctx =>
      match ctxThen.scope_get v, ctxElse.scope_get v with
      | some valThen, some valElse =>
          match if_expr test valThen valElse with
          | .error e => .error e
          | .ok value => merge_vars test ctxThen ctxElse rest (ctx.scope_set v value)
      | _, _ => .error (.unsupported ["unbound variable", v])

/-- The assertion-update loop of `eval_if_else`: fold every assertion of
the then-child's top layer into the parent as `if_expr(test, constr,
true)` and of the else-child's as `if_expr(test, true, constr)`. -/
def merge_expected (test : Proxy) (ctxThen ctxElse : Context) (ctx : Context) : Context :=
  let ctx1 := (topLayer ctxThen.expected).foldl
    (fun c constr => c.expected_add (.ite test.as_bool constr (.boolVal true))) ctx
  (topLayer ctxElse.expected).foldl
    (fun c constr => c.expected_add (.ite test.as_bool (.boolVal true) constr)) ctx1

/-- The exception-update loop of `eval_if_else`: re-add every exception
of a child's top layer with its condition guarded by the test (false on
the non-taken side). -/
def merge_exceptions (test : Proxy) (ctxThen ctxElse : Context) (ctx : Context) : Context :=
  let ctx1 := (topLayer ctxThen.exceptions).foldl
    (fun c exc => c.exceptions_add ⟨exc.names, .ite test.as_bool exc.cond (.boolVal false)⟩) ctx
  (topLayer ctxElse.exceptions).foldl
    (fun c exc => c.exceptions_add ⟨exc.names, .ite test.as_bool (.boolVal false) exc.cond⟩) ctx1

/-- The return-update loop of `eval_if_else`: re-add every return of a
child's top layer with its condition guarded by the test (false on the
non-taken side), the value unchanged. -/
def merge_returns (test : Proxy) (ctxThen ctxElse : Context) (ctx : Context) : Context :=
  let ctx1 := (topLayer ctxThen.returns).foldl
    (fun c ret => c.returns_add ⟨ret.value, .ite test.as_bool ret.cond (.boolVal false)⟩) ctx
  (topLayer ctxElse.returns).foldl
    (fun c ret => c.returns_add ⟨ret.value, .ite test.as_bool (.boolVal false) ret.cond⟩) ctx1

mutual

/-- Embeds the `eval_stmt` dispatch of `_eval_stmt.py`
(`HandlersRegistry`): one handler per statement kind; `Global`,
`ImportFrom`, `Import` and `Pass` are the `eval_skip` no-ops. -/
def eval_stmt (stmt : Stmt) (ctx : Context) : Except Err Context :=
  match stmt with
  | .functionDef fname rets body => eval_func fname rets body ctx
  | .assertS test => eval_assert test ctx
  | .exprStmt value =>
      match eval_expr value ctx with
      | .error e => .error e
      | .ok (_, ctx1) => .ok ctx1
  | .assign targets value => eval_assign targets value ctx
  | .returnS value => eval_return value ctx
  | .ifS test body orelse => eval_if_else test body orelse ctx
  | .raiseS exc cause => eval_raise exc cause ctx
  | .passS => .ok ctx
  | .importS => .ok ctx
  | .importFromS => .ok ctx
  | .globalS => .ok ctx
termination_by (stmtSize stmt, 1)
decreasing_by all_goals (simp_wf; subst_vars; simp only [Prod.lex_def, stmtSize, stmtListSize]; first | omega | simp)

/-- Embeds `eval_func` from `_eval_stmt.py`. Recursive re-entry (the
function's name already in `ctx.trace`): do not evaluate the body;
instead build an uninterpreted function over the unwrapped values of the
current scope layer (the argument sorts are their sorts, the return sort
resolved from the mandatory return annotation) and record one
`ReturnInfo` of that function applied to the arguments, unconditionally
true. Otherwise evaluate every body statement under `trace.guard`. An
unresolvable present annotation makes the solver's `z3.Function` call
fail in the source; the model maps it to an error. -/
def eval_func (fname : String) (rets : Option Node) (body : List Stmt) (ctx : Context) :
    Except Err Context :=
  -- if it is a recursive call, fake the function
  if fname ∈ ctx.trace then
    let args := (topLayer ctx.scope).map (fun kv => unwrap kv.2)
    -- generate function signature
    let sorts := args.map Expr.sort
    match rets with
    | none => .error (.unsupported ["no return type annotation for", fname])
    | some ann =>
        match ann2sort ann with
        | none => .error (.unsupported ["cannot resolve return sort for", fname])
        | some retSort =>
            let _ := sorts
            .ok (ctx.returns_add ⟨.raw (.app fname args retSort), .boolVal true⟩)
  else
    -- otherwise, try to execute it, with ctx.trace.guard(node.name)
    match eval_stmts body { ctx with trace := insert fname ctx.trace } with
    | .ok ctx1 => .ok { ctx1 with trace := ctx1.trace.erase fname }
    | .error e => .error e
termination_by (stmtListSize body, 1)
decreasing_by all_goals (simp_wf; subst_vars; simp only [Prod.lex_def, stmtSize, stmtListSize]; first | omega | simp)

/-- Embeds `eval_if_else` from `_eval_stmt.py`: evaluate the test,
evaluate both bodies in fresh child contexts, then merge changed
variables, new assertions, new exceptions and new return statements back
into the current context. The shared-by-reference `trace` is threaded
through the children explicitly. -/
def eval_if_else (test : Option Node) (body orelse : List Stmt) (ctx : Context) :
    Except Err Context :=
  match test with
  | none => .error (.unsupported ["If"])
  | some t =>
      match eval_expr t ctx with
      | .error e => .error e
      | .ok (test_ref, ctx1) =>
          match eval_stmts body ctx1.make_child with
          | .error e => .error e
          | .ok ctxThen =>
              match eval_stmts orelse { ctx1.make_child with trace := ctxThen.trace } with
              | .error e => .error e
              | .ok ctxElse =>
                  let ctx2 := { ctx1 with trace := ctxElse.trace }
                  -- update variables
                  match merge_vars test_ref ctxThen ctxElse (changedVars ctxThen ctxElse) ctx2 with
                  | .error e => .error e
                  | .ok ctx3 =>
                      -- update new assertions, exceptions, return statements
                      .ok (merge_returns test_ref ctxThen ctxElse
                        (merge_exceptions test_ref ctxThen ctxElse
                          (merge_expected test_ref ctxThen ctxElse ctx3)))
termination_by (stmtListSize body + stmtListSize orelse, 1)
decreasing_by all_goals (simp_wf; subst_vars; simp only [Prod.lex_def, stmtSize, stmtListSize]; first | omega | simp)

/-- Sequential evaluation of a statement list against one context (the
`for statement in node.body` loops of `_eval_stmt.py`). -/
def eval_stmts (stmts : List Stmt) (ctx : Context) : Except Err Context :=
  match stmts with
  | [] => .ok ctx
  | s :: rest =>
      match eval_stmt s ctx with
      | .error e => .error e
      | .ok ctx1 => eval_stmts rest ctx1
termination_by (stmtListSize stmts, 0)
decreasing_by all_goals (simp_wf; subst_vars; simp only [Prod.lex_def, stmtSize, stmtListSize]; first | omega | simp)

end

/-- Modelled from the spec: `trace.guard(name)` from `_context/_trace.py`
(not under src/; its test is `src/tests/test_context.py`) — "scoped
acquisition that adds `name` to the recursion-trace set on entry and
unconditionally removes it on exit (including on error)". The guarded
body is a state transformer on the trace set returning an optional error
together with the trace it leaves behind, so the on-error cleanup is
observable. -/
def trace_guard (name : String) (body : Finset String → Option Err × Finset String)
    (trace : Finset String) : Option Err × Finset String :=
  let r := body (insert name trace)
  (r.1, r.2.erase name)

/-- Modelled from the spec: `random_name` from `_proxies/_funcs.py` (not
under src/) generates a fresh symbol name from a name stem; freshness is
supplied by the caller through `seed` in the model. -/
def random_name (stem : String) (seed : Nat) : String :=
  stem ++ "_" ++ toString seed

/-- Modelled from the spec: `m_ge` of the numeric proxy types (not under
src/) builds the solver-level `>=`, promoting int to real on a mixed
comparison; other operand shapes are unsupported. -/
def Proxy.m_ge (self other : Proxy) : Except Err Proxy :=
  match self, other with
  | .int a, .int b => .ok (.bool (.ge a b))
  | .int a, .float b => .ok (.bool (.ge (.toReal a) b))
  | .float a, .float b => .ok (.bool (.ge a b))
  | .float a, .int b => .ok (.bool (.ge a (.toReal b)))
  | _, _ => .error (.unsupported ["unsupported comparison"])

/-- Modelled from the spec: `m_le`, as for `m_ge`. -/
def Proxy.m_le (self other : Proxy) : Except Err Proxy :=
  match self, other with
  | .int a, .int b => .ok (.bool (.le a b))
  | .int a, .float b => .ok (.bool (.le (.toReal a) b))
  | .float a, .float b => .ok (.bool (.le a b))
  | .float a, .int b => .ok (.bool (.le a (.toReal b)))
  | _, _ => .error (.unsupported ["unsupported comparison"])

/-- Modelled from the spec: `m_lt`, as for `m_ge`. -/
def Proxy.m_lt (self other : Proxy) : Except Err Proxy :=
  match self, other with
  | .int a, .int b => .ok (.bool (.lt a b))
  | .int a, .float b => .ok (.bool (.lt (.toReal a) b))
  | .float a, .float b => .ok (.bool (.lt a b))
  | .float a, .int b => .ok (.bool (.lt a (.toReal b)))
  | _, _ => .error (.unsupported ["unsupported comparison"])

/-- Modelled from the spec: `m_sub` of the numeric proxy types. -/
def Proxy.m_sub (self other : Proxy) : Except Err Proxy :=
  match self, other with
  | .int a, .int b => .ok (.int (.sub a b))
  | .int a, .float b => .ok (.float (.sub (.toReal a) b))
  | .float a, .float b => .ok (.float (.sub a b))
  | .float a, .int b => .ok (.float (.sub a (.toReal b)))
  | _, _ => .error (.unsupported ["unsupported operation"])

/-- Modelled from the spec: `m_len` of the sequence proxy types. -/
def Proxy.m_len : Proxy → Except Err Proxy
  | .str e => .ok (.int (.length e))
  | .list e => .ok (.int (.length e))
  | .varTuple e => .ok (.int (.length e))
  | .setP e => .ok (.int (.length e))
  | _ => .error (.unsupported ["object has no len"])

/-- Modelled from the spec: `m_getitem` of the sequence proxy types: the
element expression at the index, tagged by the element sort. Per spec
4.5 the proxy methods used by built-in handlers are pure expression
builders (handlers must not touch scope/expected/exceptions/returns). -/
def Proxy.m_getitem (self item : Proxy) : Except Err Proxy :=
  match self, item with
  | .list e, .int i => .ok (wrap (.nth e i))
  | .varTuple e, .int i => .ok (wrap (.nth e i))
  | .str e, .int i => .ok (.str (.nth e i))
  | _, _ => .error (.unsupported ["unsupported subscript"])

/-- Embeds `random_randint` from `_funcs/_random.py`: a fresh integer
symbol `result`, with `result >= a` and `result <= b` added to the
`given` register. -/
def random_randint (a b : Proxy) (ctx : Context) (seed : Nat) :
    Except Err (Proxy × Context) :=
  let result := Proxy.int (.const (random_name "randint" seed) .int)
  match result.m_ge a with
  | .error e => .error e
  | .ok lo =>
      match result.m_le b with
      | .error e => .error e
      | .ok hi =>
          .ok (result, (ctx.given_add (unwrap lo)).given_add (unwrap hi))

/-- Embeds `random_randrange` from `_funcs/_random.py`: a fresh integer
symbol bounded by `start <= result < stop` in `given`. -/
def random_randrange (start stop : Proxy) (ctx : Context) (seed : Nat) :
    Except Err (Proxy × Context) :=
  let result := Proxy.int (.const (random_name "randrange" seed) .int)
  match result.m_ge start with
  | .error e => .error e
  | .ok lo =>
      match result.m_lt stop with
      | .error e => .error e
      | .ok hi =>
          .ok (result, (ctx.given_add (unwrap lo)).given_add (unwrap hi))

/-- Embeds `random_choice` from `_funcs/_random.py`: an element of the
sequence at a `randint`-fresh index in `[0, len(seq) - 1]` (the
`isinstance(seq, ProxySort)` guard of the source holds for every value
of the model's proxy type). -/
def random_choice (seq : Proxy) (ctx : Context) (seed : Nat) :
    Except Err (Proxy × Context) :=
  let one := Proxy.int (.intVal 1)
  let zero := Proxy.int (.intVal 0)
  match seq.m_len with
  | .error e => .error e
  | .ok len =>
      match len.m_sub one with
      | .error e => .error e
      | .ok hi =>
          match random_randint zero hi ctx seed with
          | .error e => .error e
          | .ok (index, ctx1) =>
              match seq.m_getitem index with
              | .error e => .error e
              | .ok v => .ok (v, ctx1)

/-- Embeds `random_random` from `_funcs/_random.py`: a fresh real symbol
bounded by `0 <= result <= 1` in `given`. -/
def random_random (ctx : Context) (seed : Nat) : Except Err (Proxy × Context) :=
  let zero := Proxy.float (.floatVal 0)
  let one := Proxy.float (.floatVal 1)
  let result := Proxy.float (.const (random_name "random" seed) .float)
  match result.m_ge zero with
  | .error e => .error e
  | .ok lo =>
      match result.m_le one with
      | .error e => .error e
      | .ok hi =>
          .ok (result, (ctx.given_add (unwrap lo)).given_add (unwrap hi))

/-- Satisfiability of a recorded condition: some assignment of symbols
and some interpretation of the uninterpreted functions make it evaluate
to true. -/
def condSat (e : Expr) : Prop :=
  ∃ σ Φ, Expr.eval σ Φ e = .b true

/-- Modelled from the spec: the `deal.raises` contract check performed by
the solver-invocation collaborator (out of core scope, not under src/) —
a function satisfies `raises(A, ...)` when every reachable (satisfiable)
recorded exception event can be one of the allowed types, i.e. its
name-set meets the allowed set. -/
def raisesOk (allowed : Finset String) (excs : List ExceptionInfo) : Prop :=
  ∀ exc ∈ excs, condSat exc.cond → (exc.names ∩ allowed).Nonempty

/-- The builtins exception hierarchy as astroid declaration nodes:
`BaseException`. -/
def baseExceptionDef : Node := .classDef "builtins" "BaseException" []

/-- `Exception(BaseException)`. -/
def exceptionDef : Node :=
  .classDef "builtins" "Exception" [.name "BaseException" [baseExceptionDef]]

/-- `ValueError(Exception)`. -/
def valueErrorDef : Node :=
  .classDef "builtins" "ValueError" [.name "Exception" [exceptionDef]]

/-- A `ValueError` reference as it appears in `raise ValueError`. -/
def valueErrorRef : Node := .name "ValueError" [valueErrorDef]

/-- The function of the raises scenario (`tests/test_exceptions.py`):
`def f(): raise ValueError`. -/
def raiseValueErrorFunc : Stmt :=
  .functionDef "f" none [.raiseS (some valueErrorRef) none]

/-- A context on a path with a symbolic `interrupted` expression. -/
def interruptedCtx : Context :=
  { Context.root with interrupted := .const "interrupted" .bool }

/-- A context amid a recursive re-entry of `f` with one argument `x`
bound in scope. -/
def recursiveCtx : Context :=
  { Context.root with
    scope := [[("x", Proxy.int (.const "x" .int))]]
    trace := {"f"} }

/-- The context of the conditional scenarios: a boolean `c` in scope. -/
def ifCtx : Context :=
  { Context.root with scope := [[("c", Proxy.bool (.const "c" .bool))]] }

/-- `if c: y = 1 else: y = 2` (spec scenario C). -/
def ifAssignStmt : Stmt :=
  .ifS (some (.name "c" []))
    [.assign [.assignName "y"] (.const (.int 1))]
    [.assign [.assignName "y"] (.const (.int 2))]

/-- The then-child context left by evaluating `y = 1` in a fresh child
of `ifCtx`. -/
def ifCtxThen : Context :=
  { scope := [("y", Proxy.int (.intVal 1))] :: ifCtx.scope
    given := [] :: ifCtx.given
    expected := [] :: ifCtx.expected
    exceptions := [] :: ifCtx.exceptions
    returns := [] :: ifCtx.returns
    interrupted := ifCtx.interrupted
    trace := ifCtx.trace }

/-- The else-child context left by evaluating `y = 2` in a fresh child
of `ifCtx`. -/
def ifCtxElse : Context :=
  { ifCtxThen with scope := [("y", Proxy.int (.intVal 2))] :: ifCtx.scope }

/-- The merged value of `y` after `if c: y = 1 else: y = 2`. -/
def mergedY : Proxy :=
  .int (.ite (.const "c" .bool) (.intVal 1) (.intVal 2))

/-- The parent context after merging `if c: y = 1 else: y = 2`. -/
def ifMergedCtx : Context :=
  { ifCtx with scope := [[("c", Proxy.bool (.const "c" .bool)), ("y", mergedY)]] }

/-- `if c: assert True else: return 1` (exercising the assertion and
return merges of `eval_if_else`). -/
def ifEventStmt : Stmt :=
  .ifS (some (.name "c" []))
    [.assertS (some (.const (.bool true)))]
    [.returnS (.const (.int 1))]

/-- The then-child context left by evaluating `assert True` in a fresh
child of `ifCtx`. -/
def ifEvCtxThen : Context :=
  { scope := [] :: ifCtx.scope
    given := [] :: ifCtx.given
    expected := [.ite (.boolVal false) (.boolVal true) (.boolVal true)] :: ifCtx.expected
    exceptions := [] :: ifCtx.exceptions
    returns := [] :: ifCtx.returns
    interrupted := ifCtx.interrupted
    trace := ifCtx.trace }

/-- The else-child context left by evaluating `return 1` in a fresh
child of `ifCtx`. -/
def ifEvCtxElse : Context :=
  { ifEvCtxThen with
    expected := [] :: ifCtx.expected
    returns := [⟨.proxy (.int (.intVal 1)), .not (.boolVal false)⟩] :: ifCtx.returns }

/-- The exception name set recorded by `raise ValueError` (as computed
by the `eval_raise` fold over the raised expression). -/
def veNames : Finset String :=
  (∅ : Finset String) ∪ (getAllBases valueErrorRef).toFinset

/-- The context left by evaluating `def f(): raise ValueError` against a
fresh root context. -/
def raiseCtxF : Context :=
  { scope := [[]]
    given := [[]]
    expected := [[]]
    exceptions := [[⟨veNames, .not (.boolVal false)⟩]]
    returns := [[]]
    interrupted := .boolVal false
    trace := (insert "f" (∅ : Finset String)).erase "f" }

/-- The frame condition of a built-in handler call on the context (spec
4.5): `scope`, `expected`, `exceptions`, `returns` (and the context-wide
fields) are untouched, and the only change is a batch of constraints
appended to the top `given` layer. -/
def handlerFrame (ctx ctx' : Context) : Prop :=
  ctx'.scope = ctx.scope ∧ ctx'.expected = ctx.expected ∧
  ctx'.exceptions = ctx.exceptions ∧ ctx'.returns = ctx.returns ∧
  ctx'.interrupted = ctx.interrupted ∧ ctx'.trace = ctx.trace ∧
  ∃ gs : List Expr, topLayer ctx'.given = topLayer ctx.given ++ gs ∧
    ctx'.given.tail = ctx.given.tail

/-- The parent context after merging `if c: assert True else: return 1`:
the assertion is folded through the test, the return's condition guarded
to be false when the then-branch is taken. -/
def ifEvMergedCtx : Context :=
  { ifCtx with
    expected :=
      [[(.ite (.const "c" .bool) (.ite (.boolVal false) (.boolVal true) (.boolVal true))
          (.boolVal true))]]
    returns :=
      [[(⟨.proxy (.int (.intVal 1)),
          .ite (.const "c" .bool) (.boolVal false) (.not (.boolVal false))⟩)]] }

/-- The annotation `Tuple[int, str]` (fixed-arity tuple), with
`Tuple` inferring to the `typing.Tuple` declaration. -/
def tupleIntStrAnn : Node :=
  .subscript (.name "Tuple" [.moduleDef "typing" "typing.Tuple"])
    (.index (.tupleNode [.name "int" [], .name "str" []]))

/-- The annotation `Tuple[int, ...]` (variable-size tuple). -/
def tupleVarAnn : Node :=
  .subscript (.name "Tuple" [.moduleDef "typing" "typing.Tuple"])
    (.index (.tupleNode [.name "int" [], .ellipsisNode]))

-- ### Theorems ###

theorem topLayer_addTop (xs : List (List α)) (a : α) :
    topLayer (addTop xs a) = topLayer xs ++ [a] := by
  cases xs <;> simp [topLayer, addTop]

theorem tail_addTop (xs : List (List α)) (a : α) :
    (addTop xs a).tail = xs.tail := by
  cases xs <;> simp [addTop]

theorem allExpected_expected_add (c : Context) (e a : Expr) :
    a ∈ (c.expected_add e).allExpected ↔ a ∈ c.allExpected ∨ a = e := by
  unfold Context.allExpected Context.expected_add
  cases c.expected <;> simp [addTop] <;> tauto

/-- Claim C6: for every name, guarded body and initial trace, the name
is a member of the trace set that the guarded block runs in, and after
the guarded block exits — normally or with an error — the name is absent
from the trace set.  The body is arbitrary, which covers every nesting
depth of guards. -/
theorem claim6_trace_guard (name : String)
    (body : Finset String → Option Err × Finset String) (trace : Finset String) :
    name ∈ insert name trace ∧
      ∀ r t', trace_guard name body trace = (r, t') → name ∉ t' := by
  refine ⟨Finset.mem_insert_self _ _, ?_⟩
  intro r t' h
  have h2 := congrArg Prod.snd h
  simp only [trace_guard] at h2
  rw [← h2]
  exact Finset.not_mem_erase _ _

/-- Witness for C6 at nested guards: the outer name is in the entered
trace and absent after the guarded block exits. -/
theorem claim6_trace_guard_witness :
    "one" ∈ insert "one" (∅ : Finset String) ∧
      "one" ∉ (trace_guard "one" (trace_guard "two" (fun t => (none, t))) ∅).2 :=
  ⟨(claim6_trace_guard "one" (trace_guard "two" (fun t => (none, t))) ∅).1,
    (claim6_trace_guard "one" (trace_guard "two" (fun t => (none, t))) ∅).2
      (trace_guard "one" (trace_guard "two" (fun t => (none, t))) ∅).1
      (trace_guard "one" (trace_guard "two" (fun t => (none, t))) ∅).2 rfl⟩

/-- Claim C8: a `FunctionDef` whose name is already in the recursion
trace but which has no return-type annotation evaluates to an
`UnsupportedError` carrying the function's name; no `ReturnInfo` is
recorded (the evaluation yields an error, not a context). -/
theorem claim8_recursive_no_annotation (fname : String) (body : List Stmt) (ctx : Context)
    (h : fname ∈ ctx.trace) :
    eval_stmt (.functionDef fname none body) ctx =
      .error (.unsupported ["no return type annotation for", fname]) := by
  simp [eval_stmt, eval_func, h]

/-- Witness for C8: recursive re-entry of `f` without an annotation. -/
theorem claim8_witness :
    eval_stmt (.functionDef "f" none []) recursiveCtx =
      .error (.unsupported ["no return type annotation for", "f"]) :=
  claim8_recursive_no_annotation "f" [] recursiveCtx (by decide)

/-- Claim C4: for an assert statement whose test evaluates to a value,
the obligation added to `expected` is exactly
`If(interrupted, true, test.as_bool)`; under any assignment making
`interrupted` true the added obligation evaluates to true, so an assert
of a false expression on an interrupted path preserves satisfiability of
the accumulated `expected` set. -/
theorem claim4_assert_obligation (t : Node) (ctx ctx1 : Context) (p : Proxy)
    (h : eval_expr t ctx = .ok (p, ctx1)) :
    eval_assert (some t) ctx =
      .ok (ctx1.expected_add (.ite ctx1.interrupted (.boolVal true) p.as_bool)) ∧
    topLayer (ctx1.expected_add (.ite ctx1.interrupted (.boolVal true) p.as_bool)).expected =
      topLayer ctx1.expected ++ [.ite ctx1.interrupted (.boolVal true) p.as_bool] ∧
    ∀ σ Φ, Expr.eval σ Φ ctx1.interrupted = .b true →
      Expr.eval σ Φ (.ite ctx1.interrupted (.boolVal true) p.as_bool) = .b true ∧
      ((∀ e ∈ ctx1.allExpected, Expr.eval σ Φ e = .b true) →
        ∀ e ∈ (ctx1.expected_add
            (.ite ctx1.interrupted (.boolVal true) p.as_bool)).allExpected,
          Expr.eval σ Φ e = .b true) := by
  refine ⟨by simp [eval_assert, h], ?_, ?_⟩
  · simpa [Context.expected_add] using topLayer_addTop ctx1.expected _
  · intro σ Φ hint
    have hob : Expr.eval σ Φ (.ite ctx1.interrupted (.boolVal true) p.as_bool) = .b true := by
      simp [Expr.eval, hint]
    refine ⟨hob, ?_⟩
    intro hall e he
    rcases (allExpected_expected_add ctx1 _ e).1 he with h1 | h1
    · exact hall e h1
    · rw [h1]; exact hob

/-- Witness for C4: `assert False` on a path with symbolic interruption;
under an assignment making `interrupted` true, the recorded obligation
still evaluates to true. -/
theorem claim4_witness :
    eval_assert (some (.const (.bool false))) interruptedCtx =
      .ok (interruptedCtx.expected_add
        (.ite (.const "interrupted" .bool) (.boolVal true) (.boolVal false))) ∧
    Expr.eval (fun _ => .b true) (fun _ _ => .err)
      (.ite (.const "interrupted" .bool) (.boolVal true) (.boolVal false)) = .b true := by
  have h := claim4_assert_obligation (.const (.bool false)) interruptedCtx interruptedCtx
    (.bool (.boolVal false)) rfl
  exact ⟨h.1, (h.2.2 (fun _ => .b true) (fun _ _ => .err) rfl).1⟩

/-- Claim C7: a return statement appends to `returns` exactly one
`ReturnInfo` with the evaluated value and condition `NOT interrupted`;
under any assignment making `interrupted` true that condition evaluates
to false. -/
theorem claim7_return_condition (v : Node) (ctx ctx1 : Context) (p : Proxy)
    (h : eval_expr v ctx = .ok (p, ctx1)) :
    eval_return v ctx = .ok (ctx1.returns_add ⟨.proxy p, .not ctx1.interrupted⟩) ∧
    topLayer (ctx1.returns_add ⟨.proxy p, .not ctx1.interrupted⟩).returns =
      topLayer ctx1.returns ++ [⟨.proxy p, .not ctx1.interrupted⟩] ∧
    ∀ σ Φ, Expr.eval σ Φ ctx1.interrupted = .b true →
      Expr.eval σ Φ (Expr.not ctx1.interrupted) = .b false := by
  refine ⟨by simp [eval_return, h], ?_, ?_⟩
  · simpa [Context.returns_add] using topLayer_addTop ctx1.returns _
  · intro σ Φ hint
    simp [Expr.eval, hint]

/-- Claim C3: a `FunctionDef` whose name is in the recursion trace and
whose return annotation resolves evaluates without touching any body
statement (the result is the same for every body): it records exactly
one `ReturnInfo` whose value is the uninterpreted function named after
the function — with domain the sorts of the unwrapped values bound in
the current scope layer and range the annotation's sort — applied to
those argument values, at condition the constant true; no other register
changes. -/
theorem claim3_recursion_summary (fname : String) (ann : Node) (body : List Stmt)
    (ctx : Context) (retSort : ZSort)
    (htrace : fname ∈ ctx.trace) (hann : ann2sort ann = some retSort) :
    eval_stmt (.functionDef fname (some ann) body) ctx =
      .ok (ctx.returns_add
        ⟨.raw (.app fname ((topLayer ctx.scope).map (fun kv => unwrap kv.2)) retSort),
          .boolVal true⟩) ∧
    topLayer (ctx.returns_add
        ⟨.raw (.app fname ((topLayer ctx.scope).map (fun kv => unwrap kv.2)) retSort),
          .boolVal true⟩).returns =
      topLayer ctx.returns ++
        [⟨.raw (.app fname ((topLayer ctx.scope).map (fun kv => unwrap kv.2)) retSort),
          .boolVal true⟩] := by
  refine ⟨by simp [eval_stmt, eval_func, htrace, hann], ?_⟩
  simpa [Context.returns_add] using topLayer_addTop ctx.returns _

/-- Witness for C3: re-entry of `f(x: int) -> int` with `x` bound,
annotated `int`; the recorded value is `f(x)` at condition true. -/
theorem claim3_witness :
    eval_stmt (.functionDef "f" (some (.name "int" [])) []) recursiveCtx =
      .ok (recursiveCtx.returns_add
        ⟨.raw (.app "f" [.const "x" .int] .int), .boolVal true⟩) :=
  (claim3_recursion_summary "f" (.name "int" []) [] recursiveCtx .int (by decide)
    (by simp [ann2sort, ann2type, _sort_from_name, SIMPLE_SORTS, wrap, Proxy.sortOf,
          unwrap, Expr.sort])).1

theorem getAllBases_valueError :
    getAllBases valueErrorRef =
      ["ValueError", "ValueError", "Exception", "Exception",
        "BaseException", "BaseException"] := by
  simp [valueErrorRef, valueErrorDef, exceptionDef, baseExceptionDef, getAllBases,
    getAllBasesDefs, getAllBasesDef, getAllBasesBases]

theorem raise_scenario_aux :
    eval_stmt raiseValueErrorFunc Context.root = .ok raiseCtxF ∧
      raisesOk {"ValueError"} raiseCtxF.allExceptions ∧
      ¬ raisesOk {"ZeroDivisionError"} raiseCtxF.allExceptions := by
  have hall : raiseCtxF.allExceptions = [⟨veNames, .not (.boolVal false)⟩] := by
    simp [raiseCtxF, Context.allExceptions]
  have hnames : veNames =
      (["ValueError", "ValueError", "Exception", "Exception",
        "BaseException", "BaseException"] : List String).toFinset := by
    simp [veNames, getAllBases_valueError]
  refine ⟨?_, ?_, ?_⟩
  · simp [raiseValueErrorFunc, eval_stmt, eval_func, eval_stmts, eval_raise,
      Context.root, Context.exceptions_add, addTop, raiseCtxF, veNames]
  · intro exc hmem hsat
    rw [hall, List.mem_singleton] at hmem
    subst hmem
    rw [hnames]
    decide
  · intro h
    have hm : (⟨veNames, .not (.boolVal false)⟩ : ExceptionInfo) ∈ raiseCtxF.allExceptions := by
      rw [hall]; exact List.mem_singleton.2 rfl
    have := h _ hm ⟨fun _ => .b true, fun _ _ => .err, rfl⟩
    rw [hnames] at this
    revert this
    decide

/-- Claim C5: a raise statement records exactly one `ExceptionInfo`
whose condition is `NOT interrupted` and whose name set is the set of
names reachable from the raised expression and its optional cause by the
`_get_all_bases` walk (inferred declarations, instance unwrapping, and
recursion through bases that are names); in the end-to-end scenario,
`def f(): raise ValueError` satisfies a raises-only-ValueError contract
and fails a raises-only-ZeroDivisionError contract. -/
theorem claim5_raise_names (exc cause : Option Node) (ctx ctx2 : Context)
    (h : eval_raise exc cause ctx = .ok ctx2) :
    (∃ info : ExceptionInfo,
      ctx2 = ctx.exceptions_add info ∧
      info.cond = .not ctx.interrupted ∧
      topLayer ctx2.exceptions = topLayer ctx.exceptions ++ [info] ∧
      ∀ s, s ∈ info.names ↔ ∃ n, (exc = some n ∨ cause = some n) ∧ s ∈ getAllBases n) ∧
    (eval_stmt raiseValueErrorFunc Context.root = .ok raiseCtxF ∧
      raisesOk {"ValueError"} raiseCtxF.allExceptions ∧
      ¬ raisesOk {"ZeroDivisionError"} raiseCtxF.allExceptions) := by
  refine ⟨?_, raise_scenario_aux⟩
  simp only [eval_raise, Except.ok.injEq] at h
  refine ⟨_, h.symm, rfl, ?_, ?_⟩
  · rw [h.symm]
    simpa [Context.exceptions_add] using topLayer_addTop ctx.exceptions _
  · intro s
    cases exc <;> cases cause <;>
      simp [Option.toList, Finset.mem_union, List.mem_toFinset]
    constructor
    · rintro (hs | hs)
      · exact ⟨_, Or.inl rfl, hs⟩
      · exact ⟨_, Or.inr rfl, hs⟩
    · rintro ⟨n, (rfl | rfl), hs⟩
      · exact Or.inl hs
      · exact Or.inr hs

/-- Witness for C5: the raises scenario extracted at
`raise ValueError` evaluated in a root context. -/
theorem claim5_witness :
    eval_stmt raiseValueErrorFunc Context.root = .ok raiseCtxF ∧
      raisesOk {"ValueError"} raiseCtxF.allExceptions ∧
      ¬ raisesOk {"ZeroDivisionError"} raiseCtxF.allExceptions :=
  (claim5_raise_names (some valueErrorRef) none Context.root
    (Context.root.exceptions_add
      ⟨(∅ : Finset String) ∪ (getAllBases valueErrorRef).toFinset,
        .not Context.root.interrupted⟩) rfl).2

/-- Witness for C7: `return 7` on a path with symbolic interruption;
under an assignment making `interrupted` true the recorded condition
evaluates to false. -/
theorem claim7_witness :
    eval_return (.const (.int 7)) interruptedCtx =
      .ok (interruptedCtx.returns_add
        ⟨.proxy (.int (.intVal 7)), .not (.const "interrupted" .bool)⟩) ∧
    Expr.eval (fun _ => .b true) (fun _ _ => .err)
      (.not (.const "interrupted" .bool)) = .b false := by
  have h := claim7_return_condition (.const (.int 7)) interruptedCtx interruptedCtx
    (.int (.intVal 7)) rfl
  exact ⟨h.1, h.2.2 (fun _ => .b true) (fun _ _ => .err) rfl⟩

theorem allGiven_given_add (c : Context) (e a : Expr) :
    a ∈ (c.given_add e).allGiven ↔ a ∈ c.allGiven ∨ a = e := by
  unfold Context.allGiven Context.given_add
  cases c.given <;> simp [addTop] <;> tauto

theorem eval_ge_to_le (σ : String → Value) (Φ : String → List Value → Value)
    (a b : Expr) (h : Expr.eval σ Φ (.ge a b) = .b true) :
    Expr.eval σ Φ (.le b a) = .b true := by
  simp only [Expr.eval] at h ⊢
  cases ha : Expr.eval σ Φ a <;> cases hb : Expr.eval σ Φ b <;>
    simp_all [ge_iff_le]

theorem eval_and_true (σ : String → Value) (Φ : String → List Value → Value)
    (x y : Expr) (hx : Expr.eval σ Φ x = .b true) (hy : Expr.eval σ Φ y = .b true) :
    Expr.eval σ Φ (.and x y) = .b true := by
  simp only [Expr.eval]
  rw [hx, hy]
  rfl

theorem randint_frame (a b : Proxy) (ctx : Context) (seed : Nat) (res : Proxy)
    (ctx' : Context) (h : random_randint a b ctx seed = .ok (res, ctx')) :
    handlerFrame ctx ctx' := by
  simp only [random_randint] at h
  split at h
  · exact absurd h (by simp)
  · split at h
    · exact absurd h (by simp)
    · rename_i e1 lo hlo e2 hi hhi
      rw [Except.ok.injEq, Prod.mk.injEq] at h
      rw [← h.2]
      refine ⟨rfl, rfl, rfl, rfl, rfl, rfl, [unwrap lo, unwrap hi], ?_, ?_⟩
      · rw [show ((ctx.given_add _).given_add _).given = addTop (addTop ctx.given _) _ from rfl]
        rw [topLayer_addTop, topLayer_addTop, List.append_assoc]
        rfl
      · rw [show ((ctx.given_add _).given_add _).given = addTop (addTop ctx.given _) _ from rfl]
        rw [tail_addTop, tail_addTop]

theorem randrange_frame (a b : Proxy) (ctx : Context) (seed : Nat) (res : Proxy)
    (ctx' : Context) (h : random_randrange a b ctx seed = .ok (res, ctx')) :
    handlerFrame ctx ctx' := by
  simp only [random_randrange] at h
  split at h
  · exact absurd h (by simp)
  · split at h
    · exact absurd h (by simp)
    · rename_i e1 lo hlo e2 hi hhi
      rw [Except.ok.injEq, Prod.mk.injEq] at h
      rw [← h.2]
      refine ⟨rfl, rfl, rfl, rfl, rfl, rfl, [unwrap lo, unwrap hi], ?_, ?_⟩
      · rw [show ((ctx.given_add _).given_add _).given = addTop (addTop ctx.given _) _ from rfl]
        rw [topLayer_addTop, topLayer_addTop, List.append_assoc]
        rfl
      · rw [show ((ctx.given_add _).given_add _).given = addTop (addTop ctx.given _) _ from rfl]
        rw [tail_addTop, tail_addTop]

theorem random_frame (ctx : Context) (seed : Nat) (res : Proxy)
    (ctx' : Context) (h : random_random ctx seed = .ok (res, ctx')) :
    handlerFrame ctx ctx' := by
  simp only [random_random] at h
  split at h
  · exact absurd h (by simp)
  · split at h
    · exact absurd h (by simp)
    · rename_i e1 lo hlo e2 hi hhi
      rw [Except.ok.injEq, Prod.mk.injEq] at h
      rw [← h.2]
      refine ⟨rfl, rfl, rfl, rfl, rfl, rfl, [unwrap lo, unwrap hi], ?_, ?_⟩
      · rw [show ((ctx.given_add _).given_add _).given = addTop (addTop ctx.given _) _ from rfl]
        rw [topLayer_addTop, topLayer_addTop, List.append_assoc]
        rfl
      · rw [show ((ctx.given_add _).given_add _).given = addTop (addTop ctx.given _) _ from rfl]
        rw [tail_addTop, tail_addTop]

theorem choice_frame (s : Proxy) (ctx : Context) (seed : Nat) (res : Proxy)
    (ctx' : Context) (h : random_choice s ctx seed = .ok (res, ctx')) :
    handlerFrame ctx ctx' := by
  simp only [random_choice] at h
  split at h
  · exact absurd h (by simp)
  · split at h
    · exact absurd h (by simp)
    · split at h
      · exact absurd h (by simp)
      · rename_i index ctx1 heq
        split at h
        · exact absurd h (by simp)
        · rw [Except.ok.injEq, Prod.mk.injEq] at h
          rw [← h.2]
          exact randint_frame _ _ _ _ _ _ heq

/-- Claim C9: every registered random handler leaves scope, expected,
exceptions, returns, interrupted and trace unchanged, only appending
constraints to the top `given` layer; `randint(a, b)` on integer bounds
returns a fresh integer symbol `r` with exactly `r >= a` and `r <= b`
appended to `given`, so under every assignment satisfying the
accumulated `given` the assertion `a <= r and r <= b` evaluates true. -/
theorem claim9_random_handlers :
    (∀ ea eb : Expr, ∀ ctx : Context, ∀ seed : Nat,
      random_randint (.int ea) (.int eb) ctx seed =
        .ok (.int (.const (random_name "randint" seed) .int),
          (ctx.given_add (.ge (.const (random_name "randint" seed) .int) ea)).given_add
            (.le (.const (random_name "randint" seed) .int) eb)) ∧
      topLayer ((ctx.given_add
          (.ge (.const (random_name "randint" seed) .int) ea)).given_add
            (.le (.const (random_name "randint" seed) .int) eb)).given =
        topLayer ctx.given ++
          [.ge (.const (random_name "randint" seed) .int) ea,
            .le (.const (random_name "randint" seed) .int) eb] ∧
      ∀ σ Φ,
        (∀ e ∈ ((ctx.given_add
            (.ge (.const (random_name "randint" seed) .int) ea)).given_add
              (.le (.const (random_name "randint" seed) .int) eb)).allGiven,
          Expr.eval σ Φ e = .b true) →
        Expr.eval σ Φ (.and (.le ea (.const (random_name "randint" seed) .int))
          (.le (.const (random_name "randint" seed) .int) eb)) = .b true) ∧
    (∀ a b ctx seed res ctx', random_randint a b ctx seed = .ok (res, ctx') →
      handlerFrame ctx ctx') ∧
    (∀ a b ctx seed res ctx', random_randrange a b ctx seed = .ok (res, ctx') →
      handlerFrame ctx ctx') ∧
    (∀ ctx seed res ctx', random_random ctx seed = .ok (res, ctx') →
      handlerFrame ctx ctx') ∧
    (∀ s ctx seed res ctx', random_choice s ctx seed = .ok (res, ctx') →
      handlerFrame ctx ctx') := by
  refine ⟨?_, randint_frame, randrange_frame, random_frame, choice_frame⟩
  intro ea eb ctx seed
  refine ⟨rfl, ?_, ?_⟩
  · rw [show ((ctx.given_add _).given_add _).given = addTop (addTop ctx.given _) _ from rfl]
    rw [topLayer_addTop, topLayer_addTop, List.append_assoc]
    rfl
  · intro σ Φ hall
    have h1 : Expr.eval σ Φ (.ge (.const (random_name "randint" seed) .int) ea) = .b true := by
      refine hall _ ?_
      rw [allGiven_given_add]
      exact Or.inl ((allGiven_given_add _ _ _).2 (Or.inr rfl))
    have h2 : Expr.eval σ Φ (.le (.const (random_name "randint" seed) .int) eb) = .b true := by
      refine hall _ ?_
      rw [allGiven_given_add]
      exact Or.inr rfl
    exact eval_and_true σ Φ _ _ (eval_ge_to_le σ Φ _ _ h1) h2

/-- Witness for C9: `randint(1, 5)` against a root context, evaluated
under the assignment sending every symbol to the integer 3. -/
theorem claim9_witness :
    random_randint (.int (.intVal 1)) (.int (.intVal 5)) Context.root 0 =
      .ok (.int (.const (random_name "randint" 0) .int),
        (Context.root.given_add (.ge (.const (random_name "randint" 0) .int) (.intVal 1))).given_add
          (.le (.const (random_name "randint" 0) .int) (.intVal 5))) ∧
    Expr.eval (fun _ => .i 3) (fun _ _ => .err)
      (.and (.le (.intVal 1) (.const (random_name "randint" 0) .int))
        (.le (.const (random_name "randint" 0) .int) (.intVal 5))) = .b true := by
  have h := claim9_random_handlers.1 (.intVal 1) (.intVal 5) Context.root 0
  refine ⟨h.1, ?_⟩
  refine h.2.2 (fun _ => .i 3) (fun _ _ => .err) ?_
  intro e he
  have : e ∈ Context.root.allGiven ∨
      e = .ge (.const (random_name "randint" 0) .int) (.intVal 1) ∨
      e = .le (.const (random_name "randint" 0) .int) (.intVal 5) := by
    rcases (allGiven_given_add _ _ _).1 he with h1 | h1
    · rcases (allGiven_given_add _ _ _).1 h1 with h2 | h2
      · exact Or.inl h2
      · exact Or.inr (Or.inl h2)
    · exact Or.inr (Or.inr h1)
  rcases this with h1 | h1 | h1
  · simp [Context.root, Context.allGiven] at h1
  · rw [h1]; rfl
  · rw [h1]; rfl

theorem tuple_branch_some_iff (name : String) (nodes : List Node) :
    (_tuple_branch name nodes).isSome ↔
      ∃ x subp, nodes = [x, .ellipsisNode] ∧ ann2type name x = some subp := by
  cases nodes with
  | nil => simp [_tuple_branch]
  | cons a rest =>
    cases rest with
    | nil => simp [_tuple_branch]
    | cons b rest2 =>
      cases rest2 with
      | nil =>
        cases b <;> simp [_tuple_branch]
        cases han : ann2type name a <;> simp [han]
      | cons c rest3 => simp [_tuple_branch]

theorem ann2type_tuple_subscript (name vid : String) (d : Node) (elts : List Node)
    (hm : (get_full_name d).1 = "typing" ∨ (get_full_name d).1 = "builtins")
    (hn : str_lower vid = "tuple") :
    ann2type name (.subscript (.name vid [d]) (.index (.tupleNode elts))) =
      _tuple_branch name elts := by
  rw [show ann2type name (.subscript (.name vid [d]) (.index (.tupleNode elts))) =
      _sort_from_getattr name (.name vid [d]) (.index (.tupleNode elts)) from by
    simp [ann2type]]
  rw [show _sort_from_getattr name (.name vid [d]) (.index (.tupleNode elts)) =
      _sort_from_getattr_index name (.name vid [d]) (.tupleNode elts) from by
    simp [_sort_from_getattr]]
  rw [_sort_from_getattr_index]
  rcases hm with hm | hm <;> simp [infer, get_name, hm, hn]

/-- Claim C10: `ann2type` is total (it is a Lean function into `Option`)
and returns `none` for every annotation shape it does not recognize — a
resolved annotation is a Name, a string Const, or a Subscript; a
subscripted tuple annotation resolves (to a `VarTupleSort` over the
element sort) exactly when it has two type parameters with the second an
ellipsis and the first resolvable; in particular `Tuple[int, str]`
resolves to `none` and `Tuple[int, ...]` to a `VarTupleSort` over the
integer sort. -/
theorem claim10_ann2type_total :
    (∀ name node, (ann2type name node).isSome →
      (∃ id defs, node = .name id defs) ∨ (∃ s, node = .const (.str s)) ∨
        ∃ v sl, node = .subscript v sl) ∧
    (∀ name vid d elts,
      ((get_full_name d).1 = "typing" ∨ (get_full_name d).1 = "builtins") →
      str_lower vid = "tuple" →
      (((ann2type name (.subscript (.name vid [d]) (.index (.tupleNode elts)))).isSome ↔
          ∃ x subp, elts = [x, .ellipsisNode] ∧ ann2type name x = some subp) ∧
        ∀ x subp, elts = [x, .ellipsisNode] → ann2type name x = some subp →
          ann2type name (.subscript (.name vid [d]) (.index (.tupleNode elts))) =
            some (.varTuple (.const name (.seq subp.sortOf))))) ∧
    ann2type "t" tupleIntStrAnn = none ∧
    ann2type "t" tupleVarAnn = some (.varTuple (.const "t" (.seq .int))) := by
  have hshape : ∀ name node, (ann2type name node).isSome →
      (∃ id defs, node = Node.name id defs) ∨ (∃ s, node = .const (.str s)) ∨
        ∃ v sl, node = .subscript v sl := by
    intro name node h
    cases node with
    | name id defs => exact Or.inl ⟨id, defs, rfl⟩
    | const v =>
        cases v with
        | str s => exact Or.inr (Or.inl ⟨s, rfl⟩)
        | bool b => simp [ann2type] at h
        | int n => simp [ann2type] at h
        | noneV => simp [ann2type] at h
        | other => simp [ann2type] at h
    | subscript v sl => exact Or.inr (Or.inr ⟨v, sl, rfl⟩)
    | ellipsisNode => simp [ann2type] at h
    | assignName id => simp [ann2type] at h
    | tupleNode elts => simp [ann2type] at h
    | index v => simp [ann2type] at h
    | classDef m c bases => simp [ann2type] at h
    | instanceNode p => simp [ann2type] at h
    | moduleDef m q => simp [ann2type] at h
    | callNode f defs => simp [ann2type] at h
  refine ⟨hshape, ?_, ?_, ?_⟩
  · intro name vid d elts hm hn
    rw [ann2type_tuple_subscript name vid d elts hm hn]
    refine ⟨tuple_branch_some_iff name elts, ?_⟩
    rintro x subp rfl hx
    simp [_tuple_branch, hx]
  · rw [show tupleIntStrAnn =
        .subscript (.name "Tuple" [.moduleDef "typing" "typing.Tuple"])
          (.index (.tupleNode [.name "int" [], .name "str" []])) from rfl]
    rw [ann2type_tuple_subscript "t" "Tuple" (.moduleDef "typing" "typing.Tuple")
      [.name "int" [], .name "str" []] (Or.inl rfl) (by decide)]
    simp [_tuple_branch]
  · rw [show tupleVarAnn =
        .subscript (.name "Tuple" [.moduleDef "typing" "typing.Tuple"])
          (.index (.tupleNode [.name "int" [], .ellipsisNode])) from rfl]
    rw [ann2type_tuple_subscript "t" "Tuple" (.moduleDef "typing" "typing.Tuple")
      [.name "int" [], .ellipsisNode] (Or.inl rfl) (by decide)]
    have hint : ann2type "t" (.name "int" []) = some (.int (.const "t" .int)) := by
      simp [ann2type, _sort_from_name, SIMPLE_SORTS, wrap, Expr.sort]
    simp [_tuple_branch, hint, Proxy.sortOf, unwrap, Expr.sort]

/-- Witness for C10: the shape lemma applied at `Tuple[int, ...]` and
the two concrete tuple resolutions. -/
theorem claim10_witness :
    ((∃ id defs, tupleVarAnn = Node.name id defs) ∨
      (∃ s, tupleVarAnn = .const (.str s)) ∨
        ∃ v sl, tupleVarAnn = .subscript v sl) ∧
    ann2type "t" tupleIntStrAnn = none ∧
    ann2type "t" tupleVarAnn = some (.varTuple (.const "t" (.seq .int))) :=
  ⟨claim10_ann2type_total.1 "t" tupleVarAnn
      (by rw [claim10_ann2type_total.2.2.2]; rfl),
    claim10_ann2type_total.2.2.1, claim10_ann2type_total.2.2.2⟩

theorem beq_true_of_eq {v w : String} (h : v = w) : (v == w) = true := by
  simp [beq_iff_eq, h]

theorem beq_false_of_ne {v w : String} (h : ¬ v = w) : (v == w) = false := by
  simp [beq_eq_false_iff_ne, h]

theorem lookup_setAssoc (l : List (String × Proxy)) (w v : String) (val : Proxy) :
    (setAssoc l w val).lookup v = if v = w then some val else l.lookup v := by
  induction l with
  | nil =>
      by_cases hv : v = w
      · simp [setAssoc, List.lookup, beq_true_of_eq hv, hv]
      · simp [setAssoc, List.lookup, beq_false_of_ne hv, hv]
  | cons kv rest ih =>
      obtain ⟨k, pv⟩ := kv
      by_cases hk : k = w
      · subst hk
        by_cases hv : v = k
        · simp [setAssoc, List.lookup, beq_true_of_eq hv, hv]
        · simp [setAssoc, List.lookup, beq_false_of_ne hv, hv]
      · by_cases hv : v = k
        · subst hv
          have hvw : ¬ v = w := hk
          simp [setAssoc, hk, List.lookup, beq_true_of_eq rfl, hvw]
        · simp [setAssoc, hk, List.lookup, beq_false_of_ne hv, hv, ih]

theorem scope_get_set (c : Context) (w v : String) (val : Proxy) :
    (c.scope_set w val).scope_get v = if v = w then some val else c.scope_get v := by
  unfold Context.scope_set Context.scope_get
  cases hs : c.scope with
  | nil =>
      by_cases hv : v = w
      · simp [layersGet, List.lookup, beq_true_of_eq hv, hv]
      · simp [layersGet, List.lookup, beq_false_of_ne hv, hv]
  | cons l rest =>
      by_cases hv : v = w
      · simp [layersGet, lookup_setAssoc, hv]
      · simp [layersGet, lookup_setAssoc, hv]

theorem merge_vars_fields (tst : Proxy) (th el : Context) (vars : List String)
    (c c' : Context) (h : merge_vars tst th el vars c = .ok c') :
    c'.given = c.given ∧ c'.expected = c.expected ∧ c'.exceptions = c.exceptions ∧
      c'.returns = c.returns ∧ c'.interrupted = c.interrupted ∧ c'.trace = c.trace := by
  induction vars generalizing c with
  | nil =>
      simp only [merge_vars, Except.ok.injEq] at h
      subst h
      exact ⟨rfl, rfl, rfl, rfl, rfl, rfl⟩
  | cons v rest ih =>
      simp only [merge_vars] at h
      split at h
      · split at h
        · exact absurd h (by simp)
        · rename_i val hval
          exact ih (c.scope_set v val) h
      · exact absurd h (by simp)

theorem merge_vars_notmem (tst : Proxy) (th el : Context) (vars : List String)
    (c c' : Context) (h : merge_vars tst th el vars c = .ok c')
    (w : String) (hw : w ∉ vars) :
    c'.scope_get w = c.scope_get w := by
  induction vars generalizing c with
  | nil =>
      simp only [merge_vars, Except.ok.injEq] at h
      subst h; rfl
  | cons v rest ih =>
      simp only [merge_vars] at h
      split at h
      · split at h
        · exact absurd h (by simp)
        · rename_i val hval
          have hw2 : w ∉ rest := fun hmem => hw (List.mem_cons_of_mem _ hmem)
          have hwv : ¬ w = v := fun heq => hw (heq ▸ List.mem_cons_self _ _)
          rw [ih _ h hw2, scope_get_set, if_neg hwv]
      · exact absurd h (by simp)

theorem merge_vars_mem (tst : Proxy) (th el : Context) (vars : List String)
    (hnd : vars.Nodup) (c c' : Context) (h : merge_vars tst th el vars c = .ok c')
    (v : String) (hv : v ∈ vars) :
    ∃ a b val, th.scope_get v = some a ∧ el.scope_get v = some b ∧
      if_expr tst a b = .ok val ∧ c'.scope_get v = some val := by
  induction vars generalizing c with
  | nil => cases hv
  | cons x rest ih =>
      simp only [merge_vars] at h
      split at h
      · rename_i a b hth hel
        split at h
        · exact absurd h (by simp)
        · rename_i val hval
          rcases List.mem_cons.1 hv with rfl | hv2
          · refine ⟨a, b, val, hth, hel, hval, ?_⟩
            have hx : v ∉ rest := (List.nodup_cons.1 hnd).1
            rw [merge_vars_notmem tst th el rest _ _ h v hx, scope_get_set, if_pos rfl]
          · exact ih (List.nodup_cons.1 hnd).2 _ h hv2
      · exact absurd h (by simp)

theorem merge_vars_missing (tst : Proxy) (th el : Context) (vars : List String)
    (c : Context)
    (hmatch : ∀ v a b, v ∈ vars → th.scope_get v = some a → el.scope_get v = some b →
      ∃ val, if_expr tst a b = .ok val)
    (v : String) (hv : v ∈ vars)
    (hmiss : th.scope_get v = none ∨ el.scope_get v = none) :
    ∃ w, (th.scope_get w = none ∨ el.scope_get w = none) ∧
      merge_vars tst th el vars c = .error (.unsupported ["unbound variable", w]) := by
  induction vars generalizing c with
  | nil => cases hv
  | cons x rest ih =>
      cases hth : th.scope_get x with
      | none => exact ⟨x, Or.inl hth, by simp [merge_vars, hth]⟩
      | some a =>
          cases hel : el.scope_get x with
          | none => exact ⟨x, Or.inr hel, by simp [merge_vars, hth, hel]⟩
          | some b =>
              obtain ⟨val, hval⟩ :=
                hmatch x a b (List.mem_cons_self _ _) hth hel
              have hv2 : v ∈ rest := by
                rcases List.mem_cons.1 hv with rfl | hv2
                · rcases hmiss with hm | hm
                  · rw [hth] at hm; cases hm
                  · rw [hel] at hm; cases hm
                · exact hv2
              obtain ⟨w, hw, hrec⟩ :=
                ih (fun u ua ub hu => hmatch u ua ub (List.mem_cons_of_mem _ hu)) hv2
                  (c := c.scope_set x val)
              exact ⟨w, hw, by simp [merge_vars, hth, hel, hval, hrec]⟩

theorem foldl_expected_add_eq (g : α → Expr) (l : List α) (c : Context) :
    l.foldl (fun c e => c.expected_add (g e)) c =
      { c with expected := l.foldl (fun xs e => addTop xs (g e)) c.expected } := by
  induction l generalizing c with
  | nil => rfl
  | cons a rest ih =>
      rw [List.foldl_cons, List.foldl_cons, ih]
      rfl

theorem foldl_exceptions_add_eq (g : ExceptionInfo → ExceptionInfo)
    (l : List ExceptionInfo) (c : Context) :
    l.foldl (fun c e => c.exceptions_add (g e)) c =
      { c with exceptions := l.foldl (fun xs e => addTop xs (g e)) c.exceptions } := by
  induction l generalizing c with
  | nil => rfl
  | cons a rest ih =>
      rw [List.foldl_cons, List.foldl_cons, ih]
      rfl

theorem foldl_returns_add_eq (g : ReturnInfo → ReturnInfo)
    (l : List ReturnInfo) (c : Context) :
    l.foldl (fun c e => c.returns_add (g e)) c =
      { c with returns := l.foldl (fun xs e => addTop xs (g e)) c.returns } := by
  induction l generalizing c with
  | nil => rfl
  | cons a rest ih =>
      rw [List.foldl_cons, List.foldl_cons, ih]
      rfl

theorem topLayer_foldl_addTop (g : α → β) (l : List α) (xs : List (List β)) :
    topLayer (l.foldl (fun xs a => addTop xs (g a)) xs) = topLayer xs ++ l.map g := by
  induction l generalizing xs with
  | nil => simp
  | cons a rest ih => simp [List.foldl, ih, topLayer_addTop]

theorem tail_foldl_addTop (g : α → β) (l : List α) (xs : List (List β)) :
    (l.foldl (fun xs a => addTop xs (g a)) xs).tail = xs.tail := by
  induction l generalizing xs with
  | nil => rfl
  | cons a rest ih => simp [List.foldl, ih, tail_addTop]

theorem merge_expected_expected (tst : Proxy) (th el c : Context) :
    (merge_expected tst th el c).expected =
      List.foldl (fun xs e => addTop xs (Expr.ite tst.as_bool (.boolVal true) e))
        (List.foldl (fun xs e => addTop xs (Expr.ite tst.as_bool e (.boolVal true)))
          c.expected (topLayer th.expected))
        (topLayer el.expected) := by
  unfold merge_expected
  rw [foldl_expected_add_eq (fun e => Expr.ite tst.as_bool e (.boolVal true))
      (topLayer th.expected) c,
    foldl_expected_add_eq (fun e => Expr.ite tst.as_bool (.boolVal true) e)
      (topLayer el.expected)]

theorem merge_expected_fields (tst : Proxy) (th el c : Context) :
    (merge_expected tst th el c).scope = c.scope ∧
    (merge_expected tst th el c).given = c.given ∧
    (merge_expected tst th el c).exceptions = c.exceptions ∧
    (merge_expected tst th el c).returns = c.returns ∧
    (merge_expected tst th el c).interrupted = c.interrupted ∧
    (merge_expected tst th el c).trace = c.trace := by
  unfold merge_expected
  rw [foldl_expected_add_eq (fun e => Expr.ite tst.as_bool e (.boolVal true))
      (topLayer th.expected) c,
    foldl_expected_add_eq (fun e => Expr.ite tst.as_bool (.boolVal true) e)
      (topLayer el.expected)]
  exact ⟨rfl, rfl, rfl, rfl, rfl, rfl⟩

theorem merge_expected_topLayer (tst : Proxy) (th el c : Context) :
    topLayer (merge_expected tst th el c).expected =
      topLayer c.expected
        ++ (topLayer th.expected).map (fun a => .ite tst.as_bool a (.boolVal true))
        ++ (topLayer el.expected).map (fun a => .ite tst.as_bool (.boolVal true) a) := by
  rw [merge_expected_expected,
    topLayer_foldl_addTop (fun e => Expr.ite tst.as_bool (.boolVal true) e)
      (topLayer el.expected),
    topLayer_foldl_addTop (fun e => Expr.ite tst.as_bool e (.boolVal true))
      (topLayer th.expected)]

theorem merge_expected_tail (tst : Proxy) (th el c : Context) :
    (merge_expected tst th el c).expected.tail = c.expected.tail := by
  rw [merge_expected_expected, tail_foldl_addTop, tail_foldl_addTop]

theorem merge_exceptions_exceptions (tst : Proxy) (th el c : Context) :
    (merge_exceptions tst th el c).exceptions =
      List.foldl
        (fun xs exc => addTop xs ⟨exc.names, Expr.ite tst.as_bool (.boolVal false) exc.cond⟩)
        (List.foldl
          (fun xs exc => addTop xs ⟨exc.names, Expr.ite tst.as_bool exc.cond (.boolVal false)⟩)
          c.exceptions (topLayer th.exceptions))
        (topLayer el.exceptions) := by
  unfold merge_exceptions
  rw [foldl_exceptions_add_eq
      (fun exc => ⟨exc.names, Expr.ite tst.as_bool exc.cond (.boolVal false)⟩)
      (topLayer th.exceptions) c,
    foldl_exceptions_add_eq
      (fun exc => ⟨exc.names, Expr.ite tst.as_bool (.boolVal false) exc.cond⟩)
      (topLayer el.exceptions)]

theorem merge_exceptions_fields (tst : Proxy) (th el c : Context) :
    (merge_exceptions tst th el c).scope = c.scope ∧
    (merge_exceptions tst th el c).given = c.given ∧
    (merge_exceptions tst th el c).expected = c.expected ∧
    (merge_exceptions tst th el c).returns = c.returns ∧
    (merge_exceptions tst th el c).interrupted = c.interrupted ∧
    (merge_exceptions tst th el c).trace = c.trace := by
  unfold merge_exceptions
  rw [foldl_exceptions_add_eq
      (fun exc => ⟨exc.names, Expr.ite tst.as_bool exc.cond (.boolVal false)⟩)
      (topLayer th.exceptions) c,
    foldl_exceptions_add_eq
      (fun exc => ⟨exc.names, Expr.ite tst.as_bool (.boolVal false) exc.cond⟩)
      (topLayer el.exceptions)]
  exact ⟨rfl, rfl, rfl, rfl, rfl, rfl⟩

theorem merge_exceptions_topLayer (tst : Proxy) (th el c : Context) :
    topLayer (merge_exceptions tst th el c).exceptions =
      topLayer c.exceptions
        ++ (topLayer th.exceptions).map
            (fun exc => ⟨exc.names, .ite tst.as_bool exc.cond (.boolVal false)⟩)
        ++ (topLayer el.exceptions).map
            (fun exc => ⟨exc.names, .ite tst.as_bool (.boolVal false) exc.cond⟩) := by
  rw [merge_exceptions_exceptions,
    topLayer_foldl_addTop
      (fun exc : ExceptionInfo =>
        (⟨exc.names, Expr.ite tst.as_bool (.boolVal false) exc.cond⟩ : ExceptionInfo))
      (topLayer el.exceptions),
    topLayer_foldl_addTop
      (fun exc : ExceptionInfo =>
        (⟨exc.names, Expr.ite tst.as_bool exc.cond (.boolVal false)⟩ : ExceptionInfo))
      (topLayer th.exceptions)]

theorem merge_exceptions_tail (tst : Proxy) (th el c : Context) :
    (merge_exceptions tst th el c).exceptions.tail = c.exceptions.tail := by
  rw [merge_exceptions_exceptions, tail_foldl_addTop, tail_foldl_addTop]

theorem merge_returns_returns (tst : Proxy) (th el c : Context) :
    (merge_returns tst th el c).returns =
      List.foldl
        (fun xs ret => addTop xs ⟨ret.value, Expr.ite tst.as_bool (.boolVal false) ret.cond⟩)
        (List.foldl
          (fun xs ret => addTop xs ⟨ret.value, Expr.ite tst.as_bool ret.cond (.boolVal false)⟩)
          c.returns (topLayer th.returns))
        (topLayer el.returns) := by
  unfold merge_returns
  rw [foldl_returns_add_eq
      (fun ret => ⟨ret.value, Expr.ite tst.as_bool ret.cond (.boolVal false)⟩)
      (topLayer th.returns) c,
    foldl_returns_add_eq
      (fun ret => ⟨ret.value, Expr.ite tst.as_bool (.boolVal false) ret.cond⟩)
      (topLayer el.returns)]

theorem merge_returns_fields (tst : Proxy) (th el c : Context) :
    (merge_returns tst th el c).scope = c.scope ∧
    (merge_returns tst th el c).given = c.given ∧
    (merge_returns tst th el c).expected = c.expected ∧
    (merge_returns tst th el c).exceptions = c.exceptions ∧
    (merge_returns tst th el c).interrupted = c.interrupted ∧
    (merge_returns tst th el c).trace = c.trace := by
  unfold merge_returns
  rw [foldl_returns_add_eq
      (fun ret => ⟨ret.value, Expr.ite tst.as_bool ret.cond (.boolVal false)⟩)
      (topLayer th.returns) c,
    foldl_returns_add_eq
      (fun ret => ⟨ret.value, Expr.ite tst.as_bool (.boolVal false) ret.cond⟩)
      (topLayer el.returns)]
  exact ⟨rfl, rfl, rfl, rfl, rfl, rfl⟩

theorem merge_returns_topLayer (tst : Proxy) (th el c : Context) :
    topLayer (merge_returns tst th el c).returns =
      topLayer c.returns
        ++ (topLayer th.returns).map
            (fun ret => ⟨ret.value, .ite tst.as_bool ret.cond (.boolVal false)⟩)
        ++ (topLayer el.returns).map
            (fun ret => ⟨ret.value, .ite tst.as_bool (.boolVal false) ret.cond⟩) := by
  rw [merge_returns_returns,
    topLayer_foldl_addTop
      (fun ret : ReturnInfo =>
        (⟨ret.value, Expr.ite tst.as_bool (.boolVal false) ret.cond⟩ : ReturnInfo))
      (topLayer el.returns),
    topLayer_foldl_addTop
      (fun ret : ReturnInfo =>
        (⟨ret.value, Expr.ite tst.as_bool ret.cond (.boolVal false)⟩ : ReturnInfo))
      (topLayer th.returns)]

theorem merge_returns_tail (tst : Proxy) (th el c : Context) :
    (merge_returns tst th el c).returns.tail = c.returns.tail := by
  rw [merge_returns_returns, tail_foldl_addTop, tail_foldl_addTop]

theorem eval_if_else_decomp (t : Node) (body orelse : List Stmt) (ctx : Context)
    (test_ref : Proxy) (ctx1 ctxThen ctxElse : Context)
    (ht : eval_expr t ctx = .ok (test_ref, ctx1))
    (hthen : eval_stmts body ctx1.make_child = .ok ctxThen)
    (helse : eval_stmts orelse { ctx1.make_child with trace := ctxThen.trace } = .ok ctxElse) :
    eval_stmt (.ifS (some t) body orelse) ctx =
      match merge_vars test_ref ctxThen ctxElse (changedVars ctxThen ctxElse)
          { ctx1 with trace := ctxElse.trace } with
      | .error e => .error e
      | .ok ctx3 =>
          .ok (merge_returns test_ref ctxThen ctxElse
            (merge_exceptions test_ref ctxThen ctxElse
              (merge_expected test_ref ctxThen ctxElse ctx3))) := by
  simp [eval_stmt, eval_if_else, ht, hthen, helse]

/-- Claim C1: in the variable merge of `eval_if_else`, when evaluation
succeeds every name assigned in either child's top scope layer is
rebound in the parent to `if_expr(test, then_value, else_value)` with
the two values looked up in the respective children (lookups fall
through to parent layers); and whenever either child yields no value for
a changed name — provided the names that do have both values merge
without a variant mismatch — evaluation fails with an unbound-variable
`UnsupportedError` instead of producing a merged context. -/
theorem claim1_if_else_var_merge (t : Node) (body orelse : List Stmt) (ctx : Context)
    (test_ref : Proxy) (ctx1 ctxThen ctxElse : Context)
    (ht : eval_expr t ctx = .ok (test_ref, ctx1))
    (hthen : eval_stmts body ctx1.make_child = .ok ctxThen)
    (helse : eval_stmts orelse { ctx1.make_child with trace := ctxThen.trace } = .ok ctxElse) :
    (∀ ctx', eval_stmt (.ifS (some t) body orelse) ctx = .ok ctx' →
      ∀ v ∈ changedVars ctxThen ctxElse,
        ∃ a b val, ctxThen.scope_get v = some a ∧ ctxElse.scope_get v = some b ∧
          if_expr test_ref a b = .ok val ∧ ctx'.scope_get v = some val) ∧
    ((∀ v a b, v ∈ changedVars ctxThen ctxElse → ctxThen.scope_get v = some a →
        ctxElse.scope_get v = some b → ∃ val, if_expr test_ref a b = .ok val) →
      ∀ v ∈ changedVars ctxThen ctxElse,
        (ctxThen.scope_get v = none ∨ ctxElse.scope_get v = none) →
        ∃ w, (ctxThen.scope_get w = none ∨ ctxElse.scope_get w = none) ∧
          eval_stmt (.ifS (some t) body orelse) ctx =
            .error (.unsupported ["unbound variable", w])) := by
  have hdec := eval_if_else_decomp t body orelse ctx test_ref ctx1 ctxThen ctxElse
    ht hthen helse
  constructor
  · intro ctx' h v hv
    rw [hdec] at h
    cases hm : merge_vars test_ref ctxThen ctxElse (changedVars ctxThen ctxElse)
        { ctx1 with trace := ctxElse.trace } with
    | error e => rw [hm] at h; cases h
    | ok ctx3 =>
        rw [hm, Except.ok.injEq] at h
        obtain ⟨a, b, val, ha, hb, hval, hget⟩ :=
          merge_vars_mem test_ref ctxThen ctxElse _ (List.nodup_dedup _) _ _ hm v hv
        refine ⟨a, b, val, ha, hb, hval, ?_⟩
        have hsc : ctx'.scope = ctx3.scope := by
          rw [← h, (merge_returns_fields _ _ _ _).1, (merge_exceptions_fields _ _ _ _).1,
            (merge_expected_fields _ _ _ _).1]
        have hgg : ctx'.scope_get v = ctx3.scope_get v := by
          unfold Context.scope_get
          rw [hsc]
        rw [hgg]
        exact hget
  · intro hmatch v hv hmiss
    obtain ⟨w, hw, herr⟩ := merge_vars_missing test_ref ctxThen ctxElse
      (changedVars ctxThen ctxElse) { ctx1 with trace := ctxElse.trace } hmatch v hv hmiss
    exact ⟨w, hw, by rw [hdec, herr]⟩

/-- Claim C2: the event merge of `eval_if_else` reads only the
children's top layers: every assertion of the then/else child's top
`expected` layer joins the parent as `if_expr(test, a, true)` /
`if_expr(test, true, a)`; every exception and return of a child's top
layer is re-added with its condition guarded as
`if_expr(test, cond, false)` / `if_expr(test, false, cond)`, names and
values preserved; the deeper layers are untouched; and a guarded
condition evaluates to false whenever the test selects the other
branch. -/
theorem claim2_if_else_event_merge (t : Node) (body orelse : List Stmt) (ctx : Context)
    (test_ref : Proxy) (ctx1 ctxThen ctxElse ctx' : Context)
    (ht : eval_expr t ctx = .ok (test_ref, ctx1))
    (hthen : eval_stmts body ctx1.make_child = .ok ctxThen)
    (helse : eval_stmts orelse { ctx1.make_child with trace := ctxThen.trace } = .ok ctxElse)
    (h : eval_stmt (.ifS (some t) body orelse) ctx = .ok ctx') :
    (topLayer ctx'.expected =
      topLayer ctx1.expected
        ++ (topLayer ctxThen.expected).map (fun a => .ite test_ref.as_bool a (.boolVal true))
        ++ (topLayer ctxElse.expected).map
            (fun a => .ite test_ref.as_bool (.boolVal true) a)) ∧
    ctx'.expected.tail = ctx1.expected.tail ∧
    (topLayer ctx'.exceptions =
      topLayer ctx1.exceptions
        ++ (topLayer ctxThen.exceptions).map
            (fun exc => ⟨exc.names, .ite test_ref.as_bool exc.cond (.boolVal false)⟩)
        ++ (topLayer ctxElse.exceptions).map
            (fun exc => ⟨exc.names, .ite test_ref.as_bool (.boolVal false) exc.cond⟩)) ∧
    ctx'.exceptions.tail = ctx1.exceptions.tail ∧
    (topLayer ctx'.returns =
      topLayer ctx1.returns
        ++ (topLayer ctxThen.returns).map
            (fun ret => ⟨ret.value, .ite test_ref.as_bool ret.cond (.boolVal false)⟩)
        ++ (topLayer ctxElse.returns).map
            (fun ret => ⟨ret.value, .ite test_ref.as_bool (.boolVal false) ret.cond⟩)) ∧
    ctx'.returns.tail = ctx1.returns.tail ∧
    (∀ σ Φ c,
      (Expr.eval σ Φ test_ref.as_bool = .b true →
        Expr.eval σ Φ (.ite test_ref.as_bool (.boolVal false) c) = .b false) ∧
      (Expr.eval σ Φ test_ref.as_bool = .b false →
        Expr.eval σ Φ (.ite test_ref.as_bool c (.boolVal false)) = .b false)) := by
  have hdec := eval_if_else_decomp t body orelse ctx test_ref ctx1 ctxThen ctxElse
    ht hthen helse
  rw [hdec] at h
  cases hm : merge_vars test_ref ctxThen ctxElse (changedVars ctxThen ctxElse)
      { ctx1 with trace := ctxElse.trace } with
  | error e => rw [hm] at h; cases h
  | ok ctx3 =>
      rw [hm, Except.ok.injEq] at h
      subst h
      have hf3 := merge_vars_fields test_ref ctxThen ctxElse _ _ _ hm
      have h3exp : ctx3.expected = ctx1.expected := hf3.2.1
      have h3exc : ctx3.exceptions = ctx1.exceptions := hf3.2.2.1
      have h3ret : ctx3.returns = ctx1.returns := hf3.2.2.2.1
      refine ⟨?_, ?_, ?_, ?_, ?_, ?_, ?_⟩
      · rw [(merge_returns_fields _ _ _ _).2.2.1, (merge_exceptions_fields _ _ _ _).2.2.1,
          merge_expected_topLayer, h3exp]
      · rw [(merge_returns_fields _ _ _ _).2.2.1, (merge_exceptions_fields _ _ _ _).2.2.1,
          merge_expected_tail, h3exp]
      · rw [merge_returns_fields _ _ _ _ |>.2.2.2.1, merge_exceptions_topLayer,
          (merge_expected_fields _ _ _ _).2.2.1, h3exc]
      · rw [merge_returns_fields _ _ _ _ |>.2.2.2.1, merge_exceptions_tail,
          (merge_expected_fields _ _ _ _).2.2.1, h3exc]
      · rw [merge_returns_topLayer, (merge_exceptions_fields _ _ _ _).2.2.2.1,
          (merge_expected_fields _ _ _ _).2.2.2.1, h3ret]
      · rw [merge_returns_tail, (merge_exceptions_fields _ _ _ _).2.2.2.1,
          (merge_expected_fields _ _ _ _).2.2.2.1, h3ret]
      · intro σ Φ c
        constructor
        · intro htest
          simp [Expr.eval, htest]
        · intro htest
          simp [Expr.eval, htest]

/-- Witness for C1: `if c: y = 1 else: y = 2` rebinds `y` in the parent
to the conditional of the two branch values. -/
theorem claim1_witness :
    ifMergedCtx.scope_get "y" = some mergedY := by
  have hthen : eval_stmts [.assign [.assignName "y"] (.const (.int 1))] ifCtx.make_child =
      .ok ifCtxThen := by
    simp [eval_stmts, eval_stmt, eval_assign, eval_expr, Context.scope_set,
      Context.make_child, setAssoc, ifCtxThen, ifCtx, Context.root]
  have helse : eval_stmts [.assign [.assignName "y"] (.const (.int 2))]
      { ifCtx.make_child with trace := ifCtxThen.trace } = .ok ifCtxElse := by
    simp [eval_stmts, eval_stmt, eval_assign, eval_expr, Context.scope_set,
      Context.make_child, setAssoc, ifCtxElse, ifCtxThen, ifCtx, Context.root]
  have hc := claim1_if_else_var_merge (.name "c" [])
    [.assign [.assignName "y"] (.const (.int 1))]
    [.assign [.assignName "y"] (.const (.int 2))]
    ifCtx (.bool (.const "c" .bool)) ifCtx ifCtxThen ifCtxElse rfl hthen helse
  have hEval : eval_stmt ifAssignStmt ifCtx = .ok ifMergedCtx := by
    rw [show ifAssignStmt = .ifS (some (.name "c" []))
        [.assign [.assignName "y"] (.const (.int 1))]
        [.assign [.assignName "y"] (.const (.int 2))] from rfl]
    rw [eval_if_else_decomp (.name "c" [])
        [.assign [.assignName "y"] (.const (.int 1))]
        [.assign [.assignName "y"] (.const (.int 2))]
        ifCtx (.bool (.const "c" .bool)) ifCtx ifCtxThen ifCtxElse rfl hthen helse]
    rfl
  obtain ⟨a, b, val, ha, hb, hval, hget⟩ := hc.1 ifMergedCtx hEval "y" (by decide)
  rw [show ifCtxThen.scope_get "y" = some (Proxy.int (.intVal 1)) from rfl] at ha
  rw [show ifCtxElse.scope_get "y" = some (Proxy.int (.intVal 2)) from rfl] at hb
  obtain rfl := Option.some.inj ha
  obtain rfl := Option.some.inj hb
  rw [show if_expr (.bool (.const "c" .bool)) (.int (.intVal 1)) (.int (.intVal 2)) =
      .ok mergedY from rfl] at hval
  obtain rfl := Except.ok.inj hval
  exact hget

/-- Witness for C2: `if c: assert True else: return 1` — the merged top
layers hold exactly the guarded assertion and the guarded return. -/
theorem claim2_witness :
    topLayer ifEvMergedCtx.expected =
      [.ite (.const "c" .bool) (.ite (.boolVal false) (.boolVal true) (.boolVal true))
        (.boolVal true)] ∧
    topLayer ifEvMergedCtx.returns =
      [⟨.proxy (.int (.intVal 1)),
        .ite (.const "c" .bool) (.boolVal false) (.not (.boolVal false))⟩] := by
  have hthen : eval_stmts [.assertS (some (.const (.bool true)))] ifCtx.make_child =
      .ok ifEvCtxThen := by
    simp [eval_stmts, eval_stmt, eval_assert, eval_expr, Context.expected_add,
      Context.make_child, addTop, Proxy.as_bool, ifEvCtxThen, ifCtx, Context.root]
  have helse : eval_stmts [.returnS (.const (.int 1))]
      { ifCtx.make_child with trace := ifEvCtxThen.trace } = .ok ifEvCtxElse := by
    simp [eval_stmts, eval_stmt, eval_return, eval_expr, Context.returns_add,
      Context.make_child, addTop, ifEvCtxElse, ifEvCtxThen, ifCtx, Context.root]
  have hEval : eval_stmt ifEventStmt ifCtx = .ok ifEvMergedCtx := by
    rw [show ifEventStmt = .ifS (some (.name "c" []))
        [.assertS (some (.const (.bool true)))]
        [.returnS (.const (.int 1))] from rfl]
    rw [eval_if_else_decomp (.name "c" [])
        [.assertS (some (.const (.bool true)))]
        [.returnS (.const (.int 1))]
        ifCtx (.bool (.const "c" .bool)) ifCtx ifEvCtxThen ifEvCtxElse rfl hthen helse]
    rfl
  have h := claim2_if_else_event_merge (.name "c" [])
    [.assertS (some (.const (.bool true)))]
    [.returnS (.const (.int 1))]
    ifCtx (.bool (.const "c" .bool)) ifCtx ifEvCtxThen ifEvCtxElse ifEvMergedCtx
    rfl hthen helse hEval
  exact ⟨h.1.trans rfl, h.2.2.2.2.1.trans rfl⟩

end DealSolver
